import Mathlib

/-!
# WingStats: verification of the identity-resolution / game-repository / statistics core

This file gives a shallow embedding of the core logic of the WingStats
repository (a Wingspan score tracker) and proves properties of it:

* `src/lib/playerMappings.ts` — the alias table and identity resolution;
* `src/lib/dynamodb.ts` — game creation/read/update, per-player statistics,
  and the leaderboard, with the DynamoDB table modelled as an explicit
  `Store` value threaded through every operation;
* `src/app/api/games/route.ts` — the POST handler's input validation;
* `src/app/leaderboard/page.tsx` — the presenter's competition-rank pass.

Modelling conventions: JavaScript numbers holding category scores are
modelled as `Nat` (the API schemas constrain them to be ≥ 0 and the game's
scores are whole numbers); derived averages and win rates, which divide in
JavaScript, are modelled as exact rationals (`Rat`).  `undefined`/`null`
become `Option`.  DynamoDB `Put`/`Delete`/`Query`/`Update` calls become
pure key-based edits and filters of the `Store`; a query's sort order on a
range key becomes an insertion sort by that key (ISO date strings compare
the same lexicographically as chronologically, matching the index order).
Generated UUIDs and the creation timestamp are passed in as parameters.
-/

namespace WingStats

/-- `ScoreBreakdown` from `src/types/wingspan.ts` as used by
`src/lib/dynamodb.ts`: six always-present categories plus the two
expansion categories (`nectar`, `duetTokens`) which may be absent on
records written by older versions, read back with `|| 0`. -/
structure ScoreBreakdown where
  birds : Nat
  bonus : Nat
  endOfRound : Nat
  eggs : Nat
  cachedFood : Nat
  tuckedCards : Nat
  nectar : Option Nat
  duetTokens : Option Nat
deriving DecidableEq, Repr

/-- One player's entry of `CreateGameInput.players` / `UpdateGameInput.players`
in `src/lib/dynamodb.ts` (all eight categories are required there). -/
structure PlayerInput where
  name : String
  birds : Nat
  bonus : Nat
  endOfRound : Nat
  eggs : Nat
  cachedFood : Nat
  tuckedCards : Nat
  nectar : Nat
  duetTokens : Nat
deriving DecidableEq, Repr

/-- `PlayerScore` (as materialized by `createGame`/`getGame`). -/
structure PlayerScore where
  id : String
  gameId : String
  playerName : String
  discordUsername : Option String
  position : Nat
  scores : ScoreBreakdown
  totalScore : Nat
  isWinner : Bool
deriving DecidableEq, Repr

/-- `Game` as returned by the repository functions. -/
structure Game where
  id : String
  playedAt : String
  playerCount : Nat
  uploadedBy : String
  imageUrl : Option String
  createdAt : String
  players : List PlayerScore
deriving DecidableEq, Repr

/-! ## Player mappings (`src/lib/playerMappings.ts`) -/

/-- JavaScript `toLowerCase()` on the ASCII names this application uses
(defined over the character list so that it reduces definitionally). -/
def lowerStr (s : String) : String := ⟨s.data.map Char.toLower⟩

/-- Lexicographic code-point comparison of character lists. -/
def strLeAux : List Char → List Char → Bool
  | [], _ => true
  | _ :: _, [] => false
  | a :: as, b :: bs =>
      if a.toNat < b.toNat then true
      else if b.toNat < a.toNat then false
      else strLeAux as bs

/-- Lexicographic string comparison, the order of DynamoDB range keys and
of JavaScript string comparison on the ASCII data this application stores
(defined structurally so that it reduces definitionally). -/
def strLe (s t : String) : Bool := strLeAux s.data t.data

/-- The module-level `playerMappings` table: Discord username (lowercase)
to registered Wingspan names. -/
def playerMappings : List (String × List String) :=
  [ ("acorbs", ["Acorbs", "Acorbs1"]),
    ("pattydykerthebiker", ["partypatrick", "pattydykes"]),
    ("azmal9739", ["Azbueno", "Azmosis-Jones", "Azmal-The-Octopus"]),
    (".lex22", ["itslex22"]),
    ("motherduck1234569", ["motherduck69"]),
    ("sonofamonkey427", ["sonofamonkey"]),
    ("kingktroll", ["kingktroll", "kingktroll2"]),
    ("mediumcheese", ["MobileCheese", "NotSoBigCheese"]) ]

/-- The derived reverse lookup `wingspanToDiscordMap`: wingspan name
(lowercase) to Discord username. -/
def wingspanToDiscordMap : List (String × String) :=
  playerMappings.flatMap fun entry =>
    entry.2.map fun wingspanName => (lowerStr wingspanName, entry.1)

/-- `getDiscordUsername`: reverse lookup of a Wingspan name, `null` when
not registered. -/
def getDiscordUsername (wingspanName : String) : Option String :=
  (wingspanToDiscordMap.find? fun entry => entry.1 = lowerStr wingspanName).map
    fun entry => entry.2

/-- `getWingspanNames`: all Wingspan names registered to a Discord user,
empty if not registered. -/
def getWingspanNames (discordUsername : String) : List String :=
  ((playerMappings.find? fun entry => entry.1 = lowerStr discordUsername).map
    fun entry => entry.2).getD []

/-- `isDiscordUser`: whether the name is a registered Discord username. -/
def isDiscordUser (name : String) : Bool :=
  (playerMappings.find? fun entry => entry.1 = lowerStr name).isSome

/-- The record returned by `resolvePlayerIdentity`. -/
structure PlayerIdentity where
  discordUsername : Option String
  wingspanNames : List String
  isRegistered : Bool
deriving DecidableEq, Repr

/-- `resolvePlayerIdentity` from `src/lib/playerMappings.ts`: check the
Discord usernames first, then the reverse alias map, else standalone. -/
def resolvePlayerIdentity (name : String) : PlayerIdentity :=
  if isDiscordUser name then
    { discordUsername := some (lowerStr name)
      wingspanNames := getWingspanNames name
      isRegistered := true }
  else
    match getDiscordUsername name with
    | some discordUsername =>
        { discordUsername := some discordUsername
          wingspanNames := getWingspanNames discordUsername
          isRegistered := true }
    | none =>
        { discordUsername := none
          wingspanNames := [name]
          isRegistered := false }

/-! ## The storage model (`src/lib/dynamodb.ts`)

The DynamoDB table keys a game's metadata item at `(GAME#id, METADATA)` and
each player's item at `(GAME#id, PLAYER#position)`; both global secondary
indexes sort on the `playedAt` attribute.  We model the table as the two
item collections, with `Put` replacing any item of the same key. -/

/-- The metadata item stored at `(GAME#gameId, METADATA)`. -/
structure MetaItem where
  gameId : String
  playedAt : String
  playerCount : Nat
  uploadedBy : String
  imageUrl : Option String
  createdAt : String
  winningScore : Nat
deriving DecidableEq, Repr

/-- The player item stored at `(GAME#gameId, PLAYER#position)`. -/
structure PlayerItem where
  gameId : String
  playerId : String
  playerName : String
  discordUsername : Option String
  position : Nat
  scores : ScoreBreakdown
  totalScore : Nat
  isWinner : Bool
  playedAt : String
deriving DecidableEq, Repr

/-- The DynamoDB games table. -/
structure Store where
  metas : List MetaItem
  players : List PlayerItem
deriving DecidableEq, Repr

/-- `PutCommand` on a metadata item: replaces the item with the same key. -/
def putMeta (store : Store) (m : MetaItem) : Store :=
  { store with metas := (store.metas.filter fun x => x.gameId ≠ m.gameId) ++ [m] }

/-- `PutCommand` on a player item: replaces the item with the same
`(gameId, position)` key. -/
def putPlayer (store : Store) (p : PlayerItem) : Store :=
  { store with
    players :=
      (store.players.filter fun x => ¬(x.gameId = p.gameId ∧ x.position = p.position))
        ++ [p] }

/-- The sort key string `PLAYER#<position>` of a player item. -/
def playerSK (p : PlayerItem) : String := "PLAYER#" ++ toString p.position

/-- The `Query(PK = GAME#gid, begins_with(SK, PLAYER#))` of `getGame` and
`updateGame`: all player items of the game, ascending by sort key. -/
def playerItemsOf (store : Store) (gid : String) : List PlayerItem :=
  (store.players.filter fun p => p.gameId = gid).insertionSort
    fun p q => strLe (playerSK p) (playerSK q) = true

/-- Reading a stored player item back as a `PlayerScore`. -/
def rowOfItem (item : PlayerItem) : PlayerScore :=
  { id := item.playerId
    gameId := item.gameId
    playerName := item.playerName
    discordUsername := item.discordUsername
    position := item.position
    scores := item.scores
    totalScore := item.totalScore
    isWinner := item.isWinner }

/-- `getGame`: metadata lookup plus the player-row range query. -/
def getGame (store : Store) (gameId : String) : Option Game :=
  match store.metas.find? fun m => m.gameId = gameId with
  | none => none
  | some m =>
      some
        { id := m.gameId
          playedAt := m.playedAt
          playerCount := m.playerCount
          uploadedBy := m.uploadedBy
          imageUrl := m.imageUrl
          createdAt := m.createdAt
          players := (playerItemsOf store gameId).map rowOfItem }

/-! ## Game creation (`createGame`) -/

/-- `CreateGameInput`. -/
structure CreateGameInput where
  playedAt : String
  players : List PlayerInput
  uploadedBy : Option String
  imageUrl : Option String
deriving DecidableEq, Repr

/-- The `scores` object built from one input row (all eight categories
present). -/
def inputScores (p : PlayerInput) : ScoreBreakdown :=
  { birds := p.birds
    bonus := p.bonus
    endOfRound := p.endOfRound
    eggs := p.eggs
    cachedFood := p.cachedFood
    tuckedCards := p.tuckedCards
    nectar := some p.nectar
    duetTokens := some p.duetTokens }

/-- `Object.values(scores).reduce((sum, val) => sum + val, 0)`: the sum of
every category of a breakdown, an absent expansion category counting 0. -/
def scoreSum (s : ScoreBreakdown) : Nat :=
  s.birds + s.bonus + s.endOfRound + s.eggs + s.cachedFood + s.tuckedCards
    + s.nectar.getD 0 + s.duetTokens.getD 0

/-- One element of `playersWithScores`. -/
structure ComputedPlayer where
  name : String
  scores : ScoreBreakdown
  totalScore : Nat
  position : Nat
deriving DecidableEq, Repr

/-- The `input.players.map((player, index) => ...)` pass shared verbatim by
`createGame` and `updateGame`: per-row breakdown, total, 1-based position. -/
def computePlayersAux (index : Nat) : List PlayerInput → List ComputedPlayer
  | [] => []
  | p :: rest =>
      { name := p.name
        scores := inputScores p
        totalScore := scoreSum (inputScores p)
        position := index + 1 } :: computePlayersAux (index + 1) rest

/-- `playersWithScores` for a full input list. -/
def computePlayers (players : List PlayerInput) : List ComputedPlayer :=
  computePlayersAux 0 players

/-- `Math.max(...playersWithScores.map(p => p.totalScore))`; the source
only takes this over a nonempty list, where the `0` base is absorbed. -/
def maxScoreOf (cs : List ComputedPlayer) : Nat :=
  (cs.map fun c => c.totalScore).foldr max 0

/-- The `PlayerScore` rows built (and stored one by one) by `createGame`
and `updateGame`; `pids` supplies the generated per-player UUIDs. -/
def buildRows (gameId : String) (pids : Nat → String) (maxScore : Nat)
    (cs : List ComputedPlayer) : List PlayerScore :=
  cs.map fun c =>
    { id := pids c.position
      gameId := gameId
      playerName := c.name
      discordUsername := getDiscordUsername c.name
      position := c.position
      scores := c.scores
      totalScore := c.totalScore
      isWinner := decide (c.totalScore = maxScore) }

/-- The stored item corresponding to one built row. -/
def itemOfRow (playedAt : String) (r : PlayerScore) : PlayerItem :=
  { gameId := r.gameId
    playerId := r.id
    playerName := r.playerName
    discordUsername := r.discordUsername
    position := r.position
    scores := r.scores
    totalScore := r.totalScore
    isWinner := r.isWinner
    playedAt := playedAt }

/-- `createGame`: computes totals and winners, puts the metadata item and
one item per player, and returns the materialized game.  `gameId` and
`createdAt` stand for the generated UUID and timestamp. -/
def createGame (store : Store) (gameId createdAt : String) (pids : Nat → String)
    (input : CreateGameInput) : Game × Store :=
  let cs := computePlayers input.players
  let maxScore := maxScoreOf cs
  let store1 := putMeta store
    { gameId := gameId
      playedAt := input.playedAt
      playerCount := input.players.length
      uploadedBy := input.uploadedBy.getD "anonymous"
      imageUrl := input.imageUrl
      createdAt := createdAt
      winningScore := maxScore }
  let rows := buildRows gameId pids maxScore cs
  let store2 := rows.foldl (fun s r => putPlayer s (itemOfRow input.playedAt r)) store1
  ({ id := gameId
     playedAt := input.playedAt
     playerCount := input.players.length
     uploadedBy := input.uploadedBy.getD "anonymous"
     imageUrl := input.imageUrl
     createdAt := createdAt
     players := rows }, store2)

/-! ## Game queries by player -/

/-- A JavaScript `Set`-based first-occurrence dedup, keyed; `seen` is the
set of keys already emitted. -/
def dedupByAux {α : Type} (key : α → String) (seen : List String) :
    List α → List α
  | [] => []
  | a :: rest =>
      if seen.contains (key a) then dedupByAux key seen rest
      else a :: dedupByAux key (key a :: seen) rest

/-- JavaScript `[...new Set(xs)]`: first occurrences in order. -/
def dedupFirst (l : List String) : List String := dedupByAux (fun s => s) [] l

/-- The `GSI2-ByPlayer` query of `getGamesByPlayer`: player items whose
`playerName` equals the queried name exactly, newest `playedAt` first,
then the (JavaScript-falsy) `Limit`. -/
def byPlayerIndex (store : Store) (playerName : String) (limit : Option Nat) :
    List PlayerItem :=
  let sorted := (store.players.filter fun p => p.playerName = playerName).insertionSort
    fun p q => strLe q.playedAt p.playedAt = true
  match limit with
  | some l => if l = 0 then sorted else sorted.take l
  | none => sorted

/-- `getGamesByPlayer`: index query, first-occurrence dedup of game ids,
then a `getGame` per id. -/
def getGamesByPlayer (store : Store) (playerName : String)
    (limit : Option Nat := none) : List Game :=
  let gameIds := dedupFirst ((byPlayerIndex store playerName limit).map fun p => p.gameId)
  gameIds.filterMap (getGame store)

/-- `getGamesByDiscordUser`: union of `getGamesByPlayer` over the user's
registered names, dedup by game id as encountered, sort by `playedAt`
descending, then the (falsy) limit slice. -/
def getGamesByDiscordUser (store : Store) (discordUsername : String)
    (limit : Option Nat := none) : List Game :=
  let wingspanNames := getWingspanNames discordUsername
  if wingspanNames = [] then []
  else
    let allGames := dedupByAux (fun g => g.id) []
      (wingspanNames.flatMap fun name => getGamesByPlayer store name limit)
    let sorted := allGames.insertionSort fun a b => strLe b.playedAt a.playedAt = true
    match limit with
    | some l => if l = 0 then sorted else sorted.take l
    | none => sorted

/-! ## Player statistics -/

/-- Per-category averages (each a JavaScript division). -/
structure CategoryAverages where
  birds : Rat
  bonus : Rat
  endOfRound : Rat
  eggs : Rat
  cachedFood : Rat
  tuckedCards : Rat
  nectar : Rat
  duetTokens : Rat
deriving DecidableEq, Repr

/-- `PlayerStats` as returned by the aggregation functions. -/
structure PlayerStats where
  playerName : String
  discordUsername : Option String
  aliases : Option (List String)
  gamesPlayed : Nat
  totalWins : Nat
  winRate : Rat
  averageScore : Rat
  highScore : Nat
  lowScore : Nat
  categoryAverages : CategoryAverages
deriving DecidableEq, Repr

/-- The mutable accumulators of the stats loops (`lowScore` starts at
`Infinity`, modelled as `none`). -/
structure StatsAcc where
  totalScore : Nat
  totalWins : Nat
  highScore : Nat
  lowScore : Option Nat
  birds : Nat
  bonus : Nat
  endOfRound : Nat
  eggs : Nat
  cachedFood : Nat
  tuckedCards : Nat
  nectar : Nat
  duetTokens : Nat
deriving DecidableEq, Repr

/-- The accumulators' initial values. -/
def initAcc : StatsAcc :=
  { totalScore := 0, totalWins := 0, highScore := 0, lowScore := none
    birds := 0, bonus := 0, endOfRound := 0, eggs := 0
    cachedFood := 0, tuckedCards := 0, nectar := 0, duetTokens := 0 }

/-- The loop's `lowScore` update (`Infinity` is `none`):
`if (playerScore.totalScore < lowScore) lowScore = playerScore.totalScore`. -/
def lowStep (o : Option Nat) (t : Nat) : Option Nat :=
  match o with
  | none => some t
  | some l => if t < l then some t else some l

/-- The accumulation performed on one located row (the `if (playerScore)`
block body of the stats loops). -/
def rowStep (acc : StatsAcc) (ps : PlayerScore) : StatsAcc :=
  { totalScore := acc.totalScore + ps.totalScore
    totalWins := acc.totalWins + (if ps.isWinner then 1 else 0)
    highScore := if ps.totalScore > acc.highScore then ps.totalScore else acc.highScore
    lowScore := lowStep acc.lowScore ps.totalScore
    birds := acc.birds + ps.scores.birds
    bonus := acc.bonus + ps.scores.bonus
    endOfRound := acc.endOfRound + ps.scores.endOfRound
    eggs := acc.eggs + ps.scores.eggs
    cachedFood := acc.cachedFood + ps.scores.cachedFood
    tuckedCards := acc.tuckedCards + ps.scores.tuckedCards
    nectar := acc.nectar + ps.scores.nectar.getD 0
    duetTokens := acc.duetTokens + ps.scores.duetTokens.getD 0 }

/-- One iteration of the stats loop body: `find` the player's row in the
game and, if present, add it into every accumulator. -/
def statsStep (locate : Game → Option PlayerScore) (acc : StatsAcc) (g : Game) :
    StatsAcc :=
  match locate g with
  | none => acc
  | some ps => rowStep acc ps

/-- Packaging the accumulators into the returned `PlayerStats`. -/
def finishStats (playerName : String) (discordUsername : Option String)
    (aliases : Option (List String)) (gamesPlayed : Nat) (acc : StatsAcc) :
    PlayerStats :=
  { playerName := playerName
    discordUsername := discordUsername
    aliases := aliases
    gamesPlayed := gamesPlayed
    totalWins := acc.totalWins
    winRate := (acc.totalWins : Rat) / (gamesPlayed : Rat)
    averageScore := (acc.totalScore : Rat) / (gamesPlayed : Rat)
    highScore := acc.highScore
    lowScore := acc.lowScore.getD 0
    categoryAverages :=
      { birds := (acc.birds : Rat) / (gamesPlayed : Rat)
        bonus := (acc.bonus : Rat) / (gamesPlayed : Rat)
        endOfRound := (acc.endOfRound : Rat) / (gamesPlayed : Rat)
        eggs := (acc.eggs : Rat) / (gamesPlayed : Rat)
        cachedFood := (acc.cachedFood : Rat) / (gamesPlayed : Rat)
        tuckedCards := (acc.tuckedCards : Rat) / (gamesPlayed : Rat)
        nectar := (acc.nectar : Rat) / (gamesPlayed : Rat)
        duetTokens := (acc.duetTokens : Rat) / (gamesPlayed : Rat) } }

/-- The row `calculatePlayerStats` locates in a game: exact (case-sensitive)
name match. -/
def locateExact (playerName : String) (g : Game) : Option PlayerScore :=
  g.players.find? fun p => p.playerName = playerName

/-- The row `calculateDiscordUserStats` locates in a game: lowercase name
contained in the lowercased registered-name set. -/
def locateByAliases (wingspanNames : List String) (g : Game) : Option PlayerScore :=
  g.players.find? fun p => (wingspanNames.map fun n => lowerStr n).contains (lowerStr p.playerName)

/-- `calculatePlayerStats`: stats over `getGamesByPlayer(playerName)` with
the exact-name row lookup; `null` when there are no games. -/
def calculatePlayerStats (store : Store) (playerName : String) :
    Option PlayerStats :=
  let games := getGamesByPlayer store playerName
  if games = [] then none
  else
    let acc := games.foldl (statsStep (locateExact playerName)) initAcc
    some (finishStats playerName none none games.length acc)

/-- `calculateDiscordUserStats`: stats over `getGamesByDiscordUser` with the
case-insensitive alias row lookup; `null` when unregistered or without games. -/
def calculateDiscordUserStats (store : Store) (discordUsername : String) :
    Option PlayerStats :=
  let wingspanNames := getWingspanNames discordUsername
  if wingspanNames = [] then none
  else
    let games := getGamesByDiscordUser store discordUsername
    if games = [] then none
    else
      let acc := games.foldl (statsStep (locateByAliases wingspanNames)) initAcc
      some (finishStats discordUsername (some discordUsername)
        (some wingspanNames) games.length acc)

/-- `calculatePlayerStatsAggregated`: dispatch on the resolved identity
(the JavaScript guard `identity.isRegistered && identity.discordUsername`). -/
def calculatePlayerStatsAggregated (store : Store) (name : String) :
    Option PlayerStats :=
  let identity := resolvePlayerIdentity name
  if identity.isRegistered then
    match identity.discordUsername with
    | some discordUsername => calculateDiscordUserStats store discordUsername
    | none => calculatePlayerStats store name
  else calculatePlayerStats store name

/-- The games `calculatePlayerStatsAggregated` draws its figures from:
the union over the registered aliases for a registered identity, the
exact-name index query for a standalone one. -/
def statsGames (store : Store) (name : String) : List Game :=
  let identity := resolvePlayerIdentity name
  if identity.isRegistered then
    match identity.discordUsername with
    | some discordUsername => getGamesByDiscordUser store discordUsername
    | none => getGamesByPlayer store name
  else getGamesByPlayer store name

/-- The row `calculatePlayerStatsAggregated` locates in one fetched game:
a case-insensitive match against the registered aliases for a registered
identity, an exact (case-sensitive) name match for a standalone one. -/
def locatedRow (name : String) (g : Game) : Option PlayerScore :=
  let identity := resolvePlayerIdentity name
  if identity.isRegistered then
    match identity.discordUsername with
    | some discordUsername => locateByAliases (getWingspanNames discordUsername) g
    | none => locateExact name g
  else locateExact name g

/-- The row-location rule exactly as the specification words it: the first
player row whose name matches, case-insensitively, any of the resolved
identity's aliases — also for a standalone identity, whose alias set is
the raw name itself. -/
def specLocatedRow (name : String) (g : Game) : Option PlayerScore :=
  locateByAliases (resolvePlayerIdentity name).wingspanNames g

/-- The specification's description of the accumulation performed by
`statsFor` over a fetched game list and a per-game row-location rule:
games played is the game count, wins counts located rows with the winner
flag, average score is the row totals' sum over the game count, high/low
are the maximum/minimum located row total, and each per-category average
divides the category sum (an absent optional category counting 0) by the
game count. -/
def StatsSpec (s : PlayerStats) (games : List Game)
    (locate : Game → Option PlayerScore) : Prop :=
  games ≠ [] ∧
  games.filterMap locate ≠ [] ∧
  s.gamesPlayed = games.length ∧
  s.totalWins = (games.filterMap locate).countP (fun r => r.isWinner) ∧
  s.averageScore
    = ((((games.filterMap locate).map fun r => r.totalScore).sum : Nat) : Rat)
        / (games.length : Rat) ∧
  (s.highScore ∈ (games.filterMap locate).map fun r => r.totalScore) ∧
  (∀ t ∈ (games.filterMap locate).map fun r => r.totalScore, t ≤ s.highScore) ∧
  (s.lowScore ∈ (games.filterMap locate).map fun r => r.totalScore) ∧
  (∀ t ∈ (games.filterMap locate).map fun r => r.totalScore, s.lowScore ≤ t) ∧
  s.categoryAverages.birds
    = ((((games.filterMap locate).map fun r => r.scores.birds).sum : Nat) : Rat)
        / (games.length : Rat) ∧
  s.categoryAverages.bonus
    = ((((games.filterMap locate).map fun r => r.scores.bonus).sum : Nat) : Rat)
        / (games.length : Rat) ∧
  s.categoryAverages.endOfRound
    = ((((games.filterMap locate).map fun r => r.scores.endOfRound).sum : Nat) : Rat)
        / (games.length : Rat) ∧
  s.categoryAverages.eggs
    = ((((games.filterMap locate).map fun r => r.scores.eggs).sum : Nat) : Rat)
        / (games.length : Rat) ∧
  s.categoryAverages.cachedFood
    = ((((games.filterMap locate).map fun r => r.scores.cachedFood).sum : Nat) : Rat)
        / (games.length : Rat) ∧
  s.categoryAverages.tuckedCards
    = ((((games.filterMap locate).map fun r => r.scores.tuckedCards).sum : Nat) : Rat)
        / (games.length : Rat) ∧
  s.categoryAverages.nectar
    = ((((games.filterMap locate).map fun r => r.scores.nectar.getD 0).sum : Nat) : Rat)
        / (games.length : Rat) ∧
  s.categoryAverages.duetTokens
    = ((((games.filterMap locate).map fun r => r.scores.duetTokens.getD 0).sum : Nat) : Rat)
        / (games.length : Rat)

/-! ## Leaderboard -/

/-- `getAllPlayerNames`: scan the first 100 games of the by-date index (the
query sets no `ScanIndexForward`, so ascending), fetch each game, and
collect the distinct raw player names in encounter order. -/
def getAllPlayerNames (store : Store) : List String :=
  let items := ((store.metas.insertionSort fun a b => strLe a.playedAt b.playedAt = true).take 100)
  dedupFirst (items.flatMap fun m =>
    match getGame store m.gameId with
    | some g => g.players.map fun p => p.playerName
    | none => [])

/-- One iteration of the `getLeaderboard` loop over raw names: the state is
(accumulated stats, processed Discord users, processed standalone names);
the loop's `identity` and `discordUsername` locals are inlined. -/
def leaderboardStep (store : Store)
    (acc : List PlayerStats × List String × List String) (name : String) :
    List PlayerStats × List String × List String :=
  if h : (resolvePlayerIdentity name).isRegistered
      ∧ (resolvePlayerIdentity name).discordUsername.isSome then
    if acc.2.1.contains ((resolvePlayerIdentity name).discordUsername.get h.2) then acc
    else
      match calculateDiscordUserStats store
          ((resolvePlayerIdentity name).discordUsername.get h.2) with
      | some playerStats =>
          if playerStats.gamesPlayed ≥ 1 then
            (acc.1 ++ [playerStats],
              (resolvePlayerIdentity name).discordUsername.get h.2 :: acc.2.1, acc.2.2)
          else (acc.1,
            (resolvePlayerIdentity name).discordUsername.get h.2 :: acc.2.1, acc.2.2)
      | none =>
          (acc.1,
            (resolvePlayerIdentity name).discordUsername.get h.2 :: acc.2.1, acc.2.2)
  else
    if acc.2.2.contains (lowerStr name) then acc
    else
      match calculatePlayerStats store name with
      | some playerStats =>
          if playerStats.gamesPlayed ≥ 1 then
            (acc.1 ++ [playerStats], acc.2.1, (lowerStr name) :: acc.2.2)
          else (acc.1, acc.2.1, (lowerStr name) :: acc.2.2)
      | none => (acc.1, acc.2.1, (lowerStr name) :: acc.2.2)

/-- `getLeaderboard`: walk all observed names, dedup registered identities
by Discord username and standalone names case-insensitively, keep only
stats with at least one game, sort by average score descending. -/
def getLeaderboard (store : Store) : List PlayerStats :=
  let names := getAllPlayerNames store
  let result := names.foldl (leaderboardStep store) ([], [], [])
  result.1.insertionSort fun a b => b.averageScore ≤ a.averageScore

/-! ## Game update (`updateGame`) -/

/-- `UpdateGameInput` (the same per-player row shape as creation). -/
structure UpdateGameInput where
  playedAt : String
  players : List PlayerInput
deriving DecidableEq, Repr

/-- `updateGame`: nonexistent game short-circuits to `null`; otherwise
delete all `PLAYER#` items of the game, recompute totals and winners as in
`createGame`, update only `playedAt`, `playerCount` and `winningScore` on
the metadata item, write the new player items, and return the game reusing
the existing `uploadedBy`, `imageUrl` and `createdAt`. -/
def updateGame (store : Store) (gameId : String) (pids : Nat → String)
    (input : UpdateGameInput) : Option Game × Store :=
  match getGame store gameId with
  | none => (none, store)
  | some existingGame =>
      let store1 : Store :=
        { store with players := store.players.filter fun p => p.gameId ≠ gameId }
      let cs := computePlayers input.players
      let maxScore := maxScoreOf cs
      let store2 : Store :=
        { store1 with
          metas := store1.metas.map fun m =>
            if m.gameId = gameId then
              { m with
                playedAt := input.playedAt
                playerCount := input.players.length
                winningScore := maxScore }
            else m }
      let rows := buildRows gameId pids maxScore cs
      let store3 := rows.foldl (fun s r => putPlayer s (itemOfRow input.playedAt r)) store2
      (some
        { id := gameId
          playedAt := input.playedAt
          playerCount := input.players.length
          uploadedBy := existingGame.uploadedBy
          imageUrl := existingGame.imageUrl
          createdAt := existingGame.createdAt
          players := rows }, store3)

/-! ## The POST /api/games handler (`src/app/api/games/route.ts`)

Creation requests reach `createGame` only through this handler, which
performs the input validation (empty-body, empty player list, JavaScript-
falsy i.e. zero-length player name) and returns 400 without touching
storage when it fails. -/

/-- The handler's outcome: a 400 validation error or the created game. -/
inductive CreateResponse where
  | validationError (message : String)
  | created (game : Game)
deriving DecidableEq, Repr

/-- Whether the response is a 400 validation error. -/
def CreateResponse.isError : CreateResponse → Bool
  | .validationError _ => true
  | .created _ => false

/-- The `POST` handler of `/api/games`. -/
def postGames (store : Store) (gameId createdAt : String) (pids : Nat → String)
    (body : CreateGameInput) : CreateResponse × Store :=
  if body.playedAt = "" ∨ body.players = [] then
    (.validationError "playedAt and players are required", store)
  else if body.players.any fun p => p.name = "" then
    (.validationError "Each player must have a name", store)
  else
    let (game, store1) := createGame store gameId createdAt pids body
    (.created game, store1)

/-! ## The leaderboard presenter (`src/app/leaderboard/page.tsx`)

The page fetches `/api/players` (i.e. `getLeaderboard`'s output, sorted
descending by average score) and assigns competition ranks while mapping
to `LeaderboardEntry`. -/

/-- `LeaderboardEntry` as built by the page. -/
structure LeaderboardEntry where
  rank : Nat
  playerName : String
  discordUsername : Option String
  aliases : Option (List String)
  gamesPlayed : Nat
  winRate : Rat
  averageScore : Rat
deriving DecidableEq, Repr

/-- The entry built from one `PlayerStats` with a given rank. -/
def mkEntry (rank : Nat) (p : PlayerStats) : LeaderboardEntry :=
  { rank := rank
    playerName := p.playerName
    discordUsername := p.discordUsername
    aliases := p.aliases
    gamesPlayed := p.gamesPlayed
    winRate := p.winRate
    averageScore := p.averageScore }

/-- The page's `map` with its closed-over `prevScore`/`rank` state:
`if (player.averageScore !== prevScore) rank = index + 1`. -/
def assignRanksAux (prevScore : Option Rat) (rank index : Nat) :
    List PlayerStats → List LeaderboardEntry
  | [] => []
  | p :: rest =>
      let newRank := if prevScore ≠ some p.averageScore then index + 1 else rank
      mkEntry newRank p ::
        assignRanksAux (some p.averageScore) newRank (index + 1) rest

/-- The whole rank-assignment pass (`prevScore` starts `null`). -/
def assignRanks (players : List PlayerStats) : List LeaderboardEntry :=
  assignRanksAux none 0 0 players

/-! ## Concrete data used by witnesses and counterexamples -/

/-- A deterministic stand-in for the per-player UUID generator. -/
def pidGen : Nat → String := fun i => "p" ++ toString i

/-- An empty games table. -/
def emptyStore : Store := { metas := [], players := [] }

/-- The spec's worked scenario: Alice 45/15/10/18/4/8 and Bob 38/12/8/14/6/5. -/
def aliceBobInput : CreateGameInput :=
  { playedAt := "2024-01-01"
    players :=
      [ { name := "Alice", birds := 45, bonus := 15, endOfRound := 10, eggs := 18,
          cachedFood := 4, tuckedCards := 8, nectar := 0, duetTokens := 0 },
        { name := "Bob", birds := 38, bonus := 12, endOfRound := 8, eggs := 14,
          cachedFood := 6, tuckedCards := 5, nectar := 0, duetTokens := 0 } ]
    uploadedBy := none
    imageUrl := none }

/-- A single game played under the registered alias `Acorbs1`. -/
def acorbsInput : CreateGameInput :=
  { playedAt := "2024-01-01"
    players :=
      [ { name := "Acorbs1", birds := 80, bonus := 0, endOfRound := 0, eggs := 0,
          cachedFood := 0, tuckedCards := 0, nectar := 0, duetTokens := 0 } ]
    uploadedBy := none
    imageUrl := none }

/-- A store holding exactly the `Acorbs1` game. -/
def acorbsStore : Store := (createGame emptyStore "g1" "t0" pidGen acorbsInput).2

/-- One game whose two player rows differ only in the casing of the name. -/
def caseInput : CreateGameInput :=
  { playedAt := "2024-01-01"
    players :=
      [ { name := "bob", birds := 10, bonus := 0, endOfRound := 0, eggs := 0,
          cachedFood := 0, tuckedCards := 0, nectar := 0, duetTokens := 0 },
        { name := "Bob", birds := 20, bonus := 0, endOfRound := 0, eggs := 0,
          cachedFood := 0, tuckedCards := 0, nectar := 0, duetTokens := 0 } ]
    uploadedBy := none
    imageUrl := none }

/-- A store holding exactly the case-varying game. -/
def caseStore : Store := (createGame emptyStore "g1" "t0" pidGen caseInput).2

/-- A creation body with an empty player list. -/
def emptyPlayersInput : CreateGameInput :=
  { playedAt := "2024-01-01", players := [], uploadedBy := none, imageUrl := none }

/-- An update body reusing the Alice/Bob rows. -/
def updInput : UpdateGameInput :=
  { playedAt := "2024-02-02", players := aliceBobInput.players }

/-- All-zero category averages. -/
def zeroCats : CategoryAverages :=
  { birds := 0, bonus := 0, endOfRound := 0, eggs := 0,
    cachedFood := 0, tuckedCards := 0, nectar := 0, duetTokens := 0 }

/-- A minimal `PlayerStats` with a prescribed average, for the presenter
rank demonstrations. -/
def flatStats (avg : Rat) : PlayerStats :=
  { playerName := "x", discordUsername := none, aliases := none, gamesPlayed := 1,
    totalWins := 0, winRate := 0, averageScore := avg, highScore := 0, lowScore := 0,
    categoryAverages := zeroCats }

/-- A sorted stats sequence with a tie at the top: averages 10, 10, 7. -/
def rankDemo : List PlayerStats := [flatStats 10, flatStats 10, flatStats 7]

/-- The player row created for Alice by the spec's worked scenario. -/
def aliceRow : PlayerScore :=
  { id := "p1", gameId := "g1", playerName := "Alice", discordUsername := none,
    position := 1,
    scores := { birds := 45, bonus := 15, endOfRound := 10, eggs := 18,
                cachedFood := 4, tuckedCards := 8, nectar := some 0, duetTokens := some 0 },
    totalScore := 100, isWinner := true }

/-! # Supporting lemmas -/

theorem le_foldr_max {l : List Nat} {t : Nat} (h : t ∈ l) : t ≤ l.foldr max 0 := by
  induction l with
  | nil => cases h
  | cons u rest ih =>
      rcases List.mem_cons.mp h with rfl | h
      · exact Nat.le_max_left _ _
      · exact le_trans (ih h) (Nat.le_max_right _ _)

theorem foldr_max_le {l : List Nat} {t : Nat} (h : ∀ u ∈ l, u ≤ t) :
    l.foldr max 0 ≤ t := by
  induction l with
  | nil => exact Nat.zero_le t
  | cons u rest ih =>
      exact max_le (h u (List.mem_cons_self u rest))
        (ih fun v hv => h v (List.mem_cons_of_mem u hv))

theorem foldr_max_eq_iff {l : List Nat} {t : Nat} (h : t ∈ l) :
    t = l.foldr max 0 ↔ ∀ u ∈ l, u ≤ t := by
  constructor
  · intro he u hu
    exact he ▸ le_foldr_max hu
  · intro hu
    exact le_antisymm (le_foldr_max h) (foldr_max_le hu)

theorem computePlayersAux_total (ps : List PlayerInput) :
    ∀ (i : Nat), ∀ c ∈ computePlayersAux i ps, c.totalScore = scoreSum c.scores := by
  induction ps with
  | nil => intro i c hc; cases hc
  | cons p rest ih =>
      intro i c hc
      rcases List.mem_cons.mp hc with rfl | hc
      · rfl
      · exact ih (i + 1) c hc

theorem buildRows_map_total (gameId : String) (pids : Nat → String)
    (maxScore : Nat) (cs : List ComputedPlayer) :
    (buildRows gameId pids maxScore cs).map (fun r => r.totalScore)
      = cs.map (fun c => c.totalScore) := by
  simp [buildRows, List.map_map, Function.comp]

/-- The shared totals/winners invariant of the rows built by `createGame`
or `updateGame` from the computed players. -/
theorem buildRows_invariant (gameId : String) (pids : Nat → String)
    (cs : List ComputedPlayer)
    (hts : ∀ c ∈ cs, c.totalScore = scoreSum c.scores) :
    ∀ row ∈ buildRows gameId pids (maxScoreOf cs) cs,
      row.totalScore = scoreSum row.scores ∧
      (row.isWinner = true ↔
        ∀ other ∈ buildRows gameId pids (maxScoreOf cs) cs,
          other.totalScore ≤ row.totalScore) := by
  intro row hrow
  rcases List.mem_map.mp hrow with ⟨c, hc, rfl⟩
  refine ⟨hts c hc, ?_⟩
  have hmem : c.totalScore ∈ cs.map (fun c => c.totalScore) :=
    List.mem_map.mpr ⟨c, hc, rfl⟩
  have hiff := foldr_max_eq_iff (l := cs.map fun c => c.totalScore) hmem
  simp only [decide_eq_true_eq]
  rw [maxScoreOf] at *
  constructor
  · intro he other hother
    have hforall := hiff.mp he
    rcases List.mem_map.mp hother with ⟨c2, hc2, rfl⟩
    exact hforall c2.totalScore (List.mem_map.mpr ⟨c2, hc2, rfl⟩)
  · intro hle
    apply hiff.mpr
    intro u hu
    rcases List.mem_map.mp hu with ⟨c2, hc2, rfl⟩
    exact hle _ (List.mem_map.mpr ⟨c2, hc2, rfl⟩)

theorem assignRanksAux_length (l : List PlayerStats) :
    ∀ (prev : Option Rat) (rank index : Nat),
      (assignRanksAux prev rank index l).length = l.length := by
  induction l with
  | nil => intro prev rank index; rfl
  | cons p rest ih =>
      intro prev rank index
      simp [assignRanksAux, ih]

theorem assignRanksAux_rank_le (l : List PlayerStats) :
    ∀ (prev : Option Rat) (rank index : Nat), rank ≤ index + 1 →
    ∀ (j : Nat) (hj : j < (assignRanksAux prev rank index l).length),
      ((assignRanksAux prev rank index l).get ⟨j, hj⟩).rank ≤ index + j + 1 := by
  induction l with
  | nil => intro _ _ _ _ j hj; simp [assignRanksAux] at hj
  | cons p rest ih =>
      intro prev rank index h j hj
      cases j with
      | zero =>
          simp only [assignRanksAux, List.get_eq_getElem, List.getElem_cons_zero]
          by_cases hc : prev ≠ some p.averageScore
          · simp [mkEntry, hc]
          · simp [mkEntry, hc]
            omega
      | succ k =>
          have hk : k < (assignRanksAux (some p.averageScore)
              (if prev ≠ some p.averageScore then index + 1 else rank)
              (index + 1) rest).length := by
            simp only [assignRanksAux, List.length_cons] at hj
            omega
          have hrank : (if prev ≠ some p.averageScore then index + 1 else rank)
              ≤ (index + 1) + 1 := by
            by_cases hc : prev ≠ some p.averageScore <;> simp [hc] <;> omega
          have := ih (some p.averageScore)
            (if prev ≠ some p.averageScore then index + 1 else rank)
            (index + 1) hrank k hk
          simp only [assignRanksAux, List.get_eq_getElem, List.getElem_cons_succ]
          simp only [List.get_eq_getElem] at this
          omega

theorem assignRanksAux_adjacent (l : List PlayerStats) :
    ∀ (prev : Option Rat) (rank index : Nat), rank ≤ index + 1 →
    ∀ (j : Nat) (hj : j + 1 < (assignRanksAux prev rank index l).length),
      (((assignRanksAux prev rank index l).get ⟨j + 1, hj⟩).averageScore
          = ((assignRanksAux prev rank index l).get ⟨j, by omega⟩).averageScore →
        ((assignRanksAux prev rank index l).get ⟨j + 1, hj⟩).rank
          = ((assignRanksAux prev rank index l).get ⟨j, by omega⟩).rank) ∧
      (((assignRanksAux prev rank index l).get ⟨j + 1, hj⟩).averageScore
          ≠ ((assignRanksAux prev rank index l).get ⟨j, by omega⟩).averageScore →
        ((assignRanksAux prev rank index l).get ⟨j + 1, hj⟩).rank = index + j + 2) ∧
      ((assignRanksAux prev rank index l).get ⟨j, by omega⟩).rank
        ≤ ((assignRanksAux prev rank index l).get ⟨j + 1, hj⟩).rank ∧
      (((assignRanksAux prev rank index l).get ⟨j + 1, hj⟩).rank
          = ((assignRanksAux prev rank index l).get ⟨j, by omega⟩).rank →
        ((assignRanksAux prev rank index l).get ⟨j + 1, hj⟩).averageScore
          = ((assignRanksAux prev rank index l).get ⟨j, by omega⟩).averageScore) := by
  induction l with
  | nil => intro _ _ _ _ j hj; simp [assignRanksAux] at hj
  | cons p rest ih =>
      intro prev rank index h j hj
      cases rest with
      | nil =>
          simp [assignRanksAux] at hj
      | cons q t =>
          cases j with
          | zero =>
              have hnr : (if prev ≠ some p.averageScore then index + 1 else rank)
                  ≤ index + 1 := by
                by_cases hc : prev ≠ some p.averageScore
                · simp [hc]
                · simp only [hc, if_false]; omega
              have e0 : (assignRanksAux prev rank index (p :: q :: t)).get ⟨0, by omega⟩
                  = mkEntry (if prev ≠ some p.averageScore then index + 1 else rank) p := by
                simp [assignRanksAux]
              have e1 : (assignRanksAux prev rank index (p :: q :: t)).get ⟨1, hj⟩
                  = mkEntry
                      (if some p.averageScore ≠ some q.averageScore then index + 1 + 1
                        else if prev ≠ some p.averageScore then index + 1 else rank) q := by
                simp [assignRanksAux]
              rw [e0, e1]
              by_cases hq : p.averageScore = q.averageScore
              · have hcond : ¬(some p.averageScore ≠ some q.averageScore) := by simp [hq]
                rw [if_neg hcond]
                exact ⟨fun _ => rfl, fun hne => absurd hq (fun hh => hne (by simp [mkEntry, hh])),
                  le_refl _, fun _ => by simp [mkEntry, hq]⟩
              · have hcond : some p.averageScore ≠ some q.averageScore := by simp [hq]
                rw [if_pos hcond]
                refine ⟨fun he => absurd ?_ hq, fun _ => rfl, ?_, fun hr => ?_⟩
                · simpa [mkEntry] using he.symm
                · simp only [mkEntry]; omega
                · exfalso
                  simp only [mkEntry] at hr
                  omega
          | succ k =>
              have hrank : (if prev ≠ some p.averageScore then index + 1 else rank)
                  ≤ (index + 1) + 1 := by
                by_cases hc : prev ≠ some p.averageScore <;> simp [hc] <;> omega
              have hk : k + 1 < (assignRanksAux (some p.averageScore)
                  (if prev ≠ some p.averageScore then index + 1 else rank)
                  (index + 1) (q :: t)).length := by
                simp only [assignRanksAux, List.length_cons] at hj ⊢
                omega
              have := ih (some p.averageScore)
                (if prev ≠ some p.averageScore then index + 1 else rank)
                (index + 1) hrank k hk
              simp only [assignRanksAux, List.get_eq_getElem,
                List.getElem_cons_succ] at this ⊢
              refine ⟨this.1, fun hne => ?_, this.2.2.1, this.2.2.2⟩
              have := this.2.1 hne
              omega

theorem putPlayer_metas (s : Store) (p : PlayerItem) :
    (putPlayer s p).metas = s.metas := rfl

theorem foldl_putPlayer_metas (playedAt : String) (rows : List PlayerScore) :
    ∀ (s : Store),
      (rows.foldl (fun s r => putPlayer s (itemOfRow playedAt r)) s).metas
        = s.metas := by
  induction rows with
  | nil => intro s; rfl
  | cons r rest ih => intro s; rw [List.foldl_cons, ih, putPlayer_metas]

theorem putPlayer_no_clash (s : Store) (p : PlayerItem)
    (h : ∀ x ∈ s.players, ¬(x.gameId = p.gameId ∧ x.position = p.position)) :
    (putPlayer s p).players = s.players ++ [p] := by
  unfold putPlayer
  simp only
  rw [List.filter_eq_self.mpr]
  intro x hx
  have hx2 := h x hx
  simp only [decide_eq_true_eq]
  tauto

theorem itemOfRow_gameId (playedAt : String) (r : PlayerScore) :
    (itemOfRow playedAt r).gameId = r.gameId := rfl

theorem itemOfRow_position (playedAt : String) (r : PlayerScore) :
    (itemOfRow playedAt r).position = r.position := rfl

theorem foldl_putPlayer_players (playedAt : String) (rows : List PlayerScore) :
    ∀ (s : Store),
      (∀ x ∈ s.players, ∀ r ∈ rows,
        ¬(x.gameId = r.gameId ∧ x.position = r.position)) →
      (rows.Pairwise fun r1 r2 =>
        ¬(r1.gameId = r2.gameId ∧ r1.position = r2.position)) →
      (rows.foldl (fun s r => putPlayer s (itemOfRow playedAt r)) s).players
        = s.players ++ rows.map (itemOfRow playedAt) := by
  induction rows with
  | nil => intro s _ _; simp
  | cons r rest ih =>
      intro s hbase hpair
      rw [List.foldl_cons]
      have hput : (putPlayer s (itemOfRow playedAt r)).players
          = s.players ++ [itemOfRow playedAt r] :=
        putPlayer_no_clash s (itemOfRow playedAt r)
          (fun x hx => hbase x hx r (List.mem_cons_self r rest))
      have hrest := ih (putPlayer s (itemOfRow playedAt r)) ?_ (List.Pairwise.of_cons hpair)
      · rw [hrest, hput]
        simp
      · intro x hx r2 hr2
        rw [hput] at hx
        rcases List.mem_append.mp hx with hx | hx
        · exact hbase x hx r2 (List.mem_cons_of_mem r hr2)
        · rcases List.mem_singleton.mp hx with rfl
          simpa [itemOfRow] using (List.pairwise_cons.mp hpair).1 r2 hr2

theorem computePlayersAux_position_gt (ps : List PlayerInput) :
    ∀ (i : Nat), ∀ c ∈ computePlayersAux i ps, i < c.position := by
  induction ps with
  | nil => intro i c hc; cases hc
  | cons p rest ih =>
      intro i c hc
      rcases List.mem_cons.mp hc with rfl | hc
      · exact Nat.lt_succ_self i
      · exact Nat.lt_of_succ_lt (ih (i + 1) c hc)

theorem computePlayersAux_pairwise (ps : List PlayerInput) :
    ∀ (i : Nat), (computePlayersAux i ps).Pairwise fun a b => a.position ≠ b.position := by
  induction ps with
  | nil => intro i; exact List.Pairwise.nil
  | cons p rest ih =>
      intro i
      refine List.pairwise_cons.mpr ⟨?_, ih (i + 1)⟩
      intro c hc
      have := computePlayersAux_position_gt rest (i + 1) c hc
      simp only
      omega

theorem buildRows_gameId (gameId : String) (pids : Nat → String)
    (maxScore : Nat) (cs : List ComputedPlayer) :
    ∀ r ∈ buildRows gameId pids maxScore cs, r.gameId = gameId := by
  intro r hr
  rcases List.mem_map.mp hr with ⟨c, _, rfl⟩
  rfl

theorem buildRows_pairwise (gameId : String) (pids : Nat → String)
    (maxScore : Nat) (ps : List PlayerInput) :
    (buildRows gameId pids maxScore (computePlayers ps)).Pairwise fun r1 r2 =>
      ¬(r1.gameId = r2.gameId ∧ r1.position = r2.position) := by
  unfold buildRows
  rw [List.pairwise_map]
  refine List.Pairwise.imp ?_ (computePlayersAux_pairwise ps 0)
  intro a b hab
  simp only [not_and]
  intro _
  exact hab

theorem rowOfItem_itemOfRow (playedAt : String) (r : PlayerScore) :
    rowOfItem (itemOfRow playedAt r) = r := rfl

theorem foldl_statsStep_filterMap (locate : Game → Option PlayerScore) :
    ∀ (games : List Game) (a : StatsAcc),
      games.foldl (statsStep locate) a = (games.filterMap locate).foldl rowStep a := by
  intro games
  induction games with
  | nil => intro a; rfl
  | cons g rest ih =>
      intro a
      rw [List.foldl_cons, List.filterMap_cons]
      cases hl : locate g with
      | none => rw [ih]; simp [statsStep, hl]
      | some ps => rw [ih]; simp [statsStep, hl]

theorem foldl_rowStep_totalScore : ∀ (rows : List PlayerScore) (a : StatsAcc),
    (rows.foldl rowStep a).totalScore
      = a.totalScore + (rows.map fun r => r.totalScore).sum := by
  intro rows
  induction rows with
  | nil => intro a; simp
  | cons r rest ih =>
      intro a
      rw [List.foldl_cons, ih]
      simp [rowStep]
      omega

theorem foldl_rowStep_totalWins : ∀ (rows : List PlayerScore) (a : StatsAcc),
    (rows.foldl rowStep a).totalWins
      = a.totalWins + rows.countP (fun r => r.isWinner) := by
  intro rows
  induction rows with
  | nil => intro a; simp
  | cons r rest ih =>
      intro a
      rw [List.foldl_cons, ih, List.countP_cons]
      simp only [rowStep]
      by_cases hw : r.isWinner <;> simp [hw] <;> omega

theorem foldl_rowStep_birds : ∀ (rows : List PlayerScore) (a : StatsAcc),
    (rows.foldl rowStep a).birds
      = a.birds + (rows.map fun r => r.scores.birds).sum := by
  intro rows
  induction rows with
  | nil => intro a; simp
  | cons r rest ih => intro a; rw [List.foldl_cons, ih]; simp [rowStep]; omega

theorem foldl_rowStep_bonus : ∀ (rows : List PlayerScore) (a : StatsAcc),
    (rows.foldl rowStep a).bonus
      = a.bonus + (rows.map fun r => r.scores.bonus).sum := by
  intro rows
  induction rows with
  | nil => intro a; simp
  | cons r rest ih => intro a; rw [List.foldl_cons, ih]; simp [rowStep]; omega

theorem foldl_rowStep_endOfRound : ∀ (rows : List PlayerScore) (a : StatsAcc),
    (rows.foldl rowStep a).endOfRound
      = a.endOfRound + (rows.map fun r => r.scores.endOfRound).sum := by
  intro rows
  induction rows with
  | nil => intro a; simp
  | cons r rest ih => intro a; rw [List.foldl_cons, ih]; simp [rowStep]; omega

theorem foldl_rowStep_eggs : ∀ (rows : List PlayerScore) (a : StatsAcc),
    (rows.foldl rowStep a).eggs
      = a.eggs + (rows.map fun r => r.scores.eggs).sum := by
  intro rows
  induction rows with
  | nil => intro a; simp
  | cons r rest ih => intro a; rw [List.foldl_cons, ih]; simp [rowStep]; omega

theorem foldl_rowStep_cachedFood : ∀ (rows : List PlayerScore) (a : StatsAcc),
    (rows.foldl rowStep a).cachedFood
      = a.cachedFood + (rows.map fun r => r.scores.cachedFood).sum := by
  intro rows
  induction rows with
  | nil => intro a; simp
  | cons r rest ih => intro a; rw [List.foldl_cons, ih]; simp [rowStep]; omega

theorem foldl_rowStep_tuckedCards : ∀ (rows : List PlayerScore) (a : StatsAcc),
    (rows.foldl rowStep a).tuckedCards
      = a.tuckedCards + (rows.map fun r => r.scores.tuckedCards).sum := by
  intro rows
  induction rows with
  | nil => intro a; simp
  | cons r rest ih => intro a; rw [List.foldl_cons, ih]; simp [rowStep]; omega

theorem foldl_rowStep_nectar : ∀ (rows : List PlayerScore) (a : StatsAcc),
    (rows.foldl rowStep a).nectar
      = a.nectar + (rows.map fun r => r.scores.nectar.getD 0).sum := by
  intro rows
  induction rows with
  | nil => intro a; simp
  | cons r rest ih => intro a; rw [List.foldl_cons, ih]; simp [rowStep]; omega

theorem foldl_rowStep_duetTokens : ∀ (rows : List PlayerScore) (a : StatsAcc),
    (rows.foldl rowStep a).duetTokens
      = a.duetTokens + (rows.map fun r => r.scores.duetTokens.getD 0).sum := by
  intro rows
  induction rows with
  | nil => intro a; simp
  | cons r rest ih => intro a; rw [List.foldl_cons, ih]; simp [rowStep]; omega

theorem foldr_max_init_comm : ∀ (l : List Nat) (t h : Nat),
    l.foldr max (max t h) = max t (l.foldr max h) := by
  intro l
  induction l with
  | nil => intro t h; rfl
  | cons u rest ih =>
      intro t h
      simp only [List.foldr_cons, ih]
      omega

theorem foldl_rowStep_high : ∀ (rows : List PlayerScore) (a : StatsAcc),
    (rows.foldl rowStep a).highScore
      = (rows.map fun r => r.totalScore).foldr max a.highScore := by
  intro rows
  induction rows with
  | nil => intro a; rfl
  | cons r rest ih =>
      intro a
      rw [List.foldl_cons, ih, List.map_cons, List.foldr_cons, ← foldr_max_init_comm]
      congr 1
      simp only [rowStep]
      by_cases hc : r.totalScore > a.highScore
      · simp only [if_pos hc]; omega
      · simp only [if_neg hc]; omega

theorem foldr_max_zero_mem : ∀ (l : List Nat), l ≠ [] → l.foldr max 0 ∈ l := by
  intro l
  induction l with
  | nil => intro h; exact absurd rfl h
  | cons t rest ih =>
      intro _
      cases rest with
      | nil => simp
      | cons u tl =>
          rcases max_choice t ((u :: tl).foldr max 0) with hc | hc

          · rw [List.foldr_cons, hc]; exact List.mem_cons_self _ _
          · rw [List.foldr_cons, hc]
            exact List.mem_cons_of_mem _ (ih (by simp))

theorem foldr_min_init_comm : ∀ (l : List Nat) (t h : Nat),
    l.foldr min (min t h) = min t (l.foldr min h) := by
  intro l
  induction l with
  | nil => intro t h; rfl
  | cons u rest ih =>
      intro t h
      simp only [List.foldr_cons, ih]
      omega

theorem foldl_lowStep_some : ∀ (l : List Nat) (v : Nat),
    l.foldl lowStep (some v) = some (l.foldr min v) := by
  intro l
  induction l with
  | nil => intro v; rfl
  | cons t rest ih =>
      intro v
      rw [List.foldl_cons]
      have h1 : lowStep (some v) t = some (min t v) := by
        simp only [lowStep]
        by_cases hc : t < v
        · simp [hc]; omega
        · simp [hc]; omega
      rw [h1, ih, List.foldr_cons, foldr_min_init_comm]

theorem foldr_min_le_init : ∀ (l : List Nat) (v : Nat), l.foldr min v ≤ v := by
  intro l
  induction l with
  | nil => intro v; exact le_refl v
  | cons t rest ih =>
      intro v
      rw [List.foldr_cons]
      exact le_trans (Nat.min_le_right _ _) (ih v)

theorem foldr_min_le_mem : ∀ (l : List Nat) (v u : Nat), u ∈ l → l.foldr min v ≤ u := by
  intro l
  induction l with
  | nil => intro v u hu; cases hu
  | cons t rest ih =>
      intro v u hu
      rw [List.foldr_cons]
      rcases List.mem_cons.mp hu with rfl | hu
      · exact Nat.min_le_left _ _
      · exact le_trans (Nat.min_le_right _ _) (ih v u hu)

theorem foldr_min_mem_or : ∀ (l : List Nat) (v : Nat),
    l.foldr min v = v ∨ l.foldr min v ∈ l := by
  intro l
  induction l with
  | nil => intro v; exact Or.inl rfl
  | cons t rest ih =>
      intro v
      rw [List.foldr_cons]
      rcases min_choice t (rest.foldr min v) with hc | hc
      · right; rw [hc]; exact List.mem_cons_self _ _
      · rcases ih v with h | h
        · left; rw [hc]; exact h
        · right; rw [hc]; exact List.mem_cons_of_mem _ h

theorem foldl_rowStep_low : ∀ (rows : List PlayerScore) (a : StatsAcc),
    (rows.foldl rowStep a).lowScore
      = (rows.map fun r => r.totalScore).foldl lowStep a.lowScore := by
  intro rows
  induction rows with
  | nil => intro a; rfl
  | cons r rest ih =>
      intro a
      rw [List.foldl_cons, ih, List.map_cons, List.foldl_cons]
      rfl

theorem dedupByAux_subset {α : Type} (key : α → String) :
    ∀ (l : List α) (seen : List String) (x : α),
      x ∈ dedupByAux key seen l → x ∈ l := by
  intro l
  induction l with
  | nil => intro seen x hx; cases hx
  | cons a rest ih =>
      intro seen x hx
      simp only [dedupByAux] at hx
      by_cases hc : seen.contains (key a)
      · rw [if_pos hc] at hx
        exact List.mem_cons_of_mem a (ih seen x hx)
      · rw [if_neg hc] at hx
        rcases List.mem_cons.mp hx with rfl | hx
        · exact List.mem_cons_self _ _
        · exact List.mem_cons_of_mem a (ih _ x hx)

theorem getGame_players (store : Store) (gameId : String) (g : Game)
    (h : getGame store gameId = some g) :
    g.players = (playerItemsOf store gameId).map rowOfItem := by
  unfold getGame at h
  cases hf : store.metas.find? fun m => m.gameId = gameId with
  | none => rw [hf] at h; cases h
  | some m =>
      rw [hf] at h
      have := Option.some.inj h
      rw [← this]

/-- Every game fetched by `getGamesByPlayer` contains a row whose name is
exactly the queried name (the GSI2 index keys player items by name). -/
theorem getGamesByPlayer_row (store : Store) (name : String) (limit : Option Nat)
    (g : Game) (hg : g ∈ getGamesByPlayer store name limit) :
    ∃ p ∈ g.players, p.playerName = name := by
  unfold getGamesByPlayer at hg
  rcases List.mem_filterMap.mp hg with ⟨gid, hgid, hget⟩
  have hgid2 : gid ∈ (byPlayerIndex store name limit).map fun p => p.gameId :=
    dedupByAux_subset _ _ _ gid hgid
  rcases List.mem_map.mp hgid2 with ⟨item, hitem, rfl⟩
  have hitem2 : item ∈ (store.players.filter fun p => p.playerName = name).insertionSort
      fun p q => strLe q.playedAt p.playedAt = true := by
    cases limit with
    | none => simpa only [byPlayerIndex] using hitem
    | some l =>
        simp only [byPlayerIndex] at hitem
        by_cases hl : l = 0
        · rw [if_pos hl] at hitem; exact hitem
        · rw [if_neg hl] at hitem; exact List.take_subset _ _ hitem
  have hitem3 : item ∈ store.players.filter fun p => p.playerName = name :=
    (List.mem_insertionSort _).mp hitem2
  have hname : item.playerName = name := by
    simpa using List.of_mem_filter hitem3
  have hmem : item ∈ store.players := (List.mem_filter.mp hitem3).1
  refine ⟨rowOfItem item, ?_, hname⟩
  rw [getGame_players store item.gameId g hget]
  apply List.mem_map_of_mem
  unfold playerItemsOf
  rw [List.mem_insertionSort]
  exact List.mem_filter.mpr ⟨hmem, by simp⟩

/-- Every game fetched by `getGamesByDiscordUser` comes from the
exact-name query of one of the user's registered names. -/
theorem getGamesByDiscordUser_from_alias (store : Store) (discordUsername : String)
    (limit : Option Nat) (g : Game)
    (hg : g ∈ getGamesByDiscordUser store discordUsername limit) :
    ∃ n ∈ getWingspanNames discordUsername, g ∈ getGamesByPlayer store n limit := by
  unfold getGamesByDiscordUser at hg
  by_cases hw : getWingspanNames discordUsername = []
  · rw [if_pos hw] at hg; cases hg
  · rw [if_neg hw] at hg
    have hg2 : g ∈ (dedupByAux (fun g => g.id) []
        ((getWingspanNames discordUsername).flatMap fun name =>
          getGamesByPlayer store name limit)).insertionSort
        fun a b => strLe b.playedAt a.playedAt = true := by
      cases limit with
      | none => exact hg
      | some l =>
          have hg3 : g ∈ if l = 0 then
              ((dedupByAux (fun g => g.id) []
                ((getWingspanNames discordUsername).flatMap fun name =>
                  getGamesByPlayer store name (some l))).insertionSort
                fun a b => strLe b.playedAt a.playedAt = true)
            else ((dedupByAux (fun g => g.id) []
                ((getWingspanNames discordUsername).flatMap fun name =>
                  getGamesByPlayer store name (some l))).insertionSort
                fun a b => strLe b.playedAt a.playedAt = true).take l := hg
          by_cases hl : l = 0
          · rwa [if_pos hl] at hg3
          · rw [if_neg hl] at hg3; exact List.take_subset _ _ hg3
    have hg3 := (List.mem_insertionSort _).mp hg2
    have hg4 := dedupByAux_subset _ _ _ g hg3
    exact List.mem_flatMap.mp hg4

theorem locateExact_isSome (store : Store) (name : String) (limit : Option Nat)
    (g : Game) (hg : g ∈ getGamesByPlayer store name limit) :
    (locateExact name g).isSome = true := by
  rcases getGamesByPlayer_row store name limit g hg with ⟨p, hp, hname⟩
  unfold locateExact
  exact List.find?_isSome.mpr ⟨p, hp, by simp [hname]⟩

theorem locateByAliases_isSome (store : Store) (discordUsername : String)
    (limit : Option Nat) (g : Game)
    (hg : g ∈ getGamesByDiscordUser store discordUsername limit) :
    (locateByAliases (getWingspanNames discordUsername) g).isSome = true := by
  rcases getGamesByDiscordUser_from_alias store discordUsername limit g hg
    with ⟨n, hn, hgp⟩
  rcases getGamesByPlayer_row store n limit g hgp with ⟨p, hp, hname⟩
  unfold locateByAliases
  refine List.find?_isSome.mpr ⟨p, hp, ?_⟩
  show ((getWingspanNames discordUsername).map fun n => lowerStr n).contains
    (lowerStr p.playerName) = true
  rw [hname]
  exact List.elem_iff.mpr (List.mem_map_of_mem _ hn)

/-- A nonempty fetched-games list yields a nonempty located-rows list. -/
theorem filterMap_locate_ne_nil (games : List Game)
    (locate : Game → Option PlayerScore) (hne : games ≠ [])
    (hall : ∀ g ∈ games, (locate g).isSome = true) :
    games.filterMap locate ≠ [] := by
  cases games with
  | nil => exact absurd rfl hne
  | cons g rest =>
      intro hcon
      have h1 := hall g (List.mem_cons_self _ _)
      rw [List.filterMap_cons] at hcon
      cases hl : locate g with
      | none => rw [hl] at h1; cases h1
      | some ps => rw [hl] at hcon; cases hcon

/-- Complete characterization of the stats accumulators after the loop,
in terms of the list of located rows. -/
theorem statsAcc_char (games : List Game) (locate : Game → Option PlayerScore)
    (hrows : games.filterMap locate ≠ []) :
    (games.foldl (statsStep locate) initAcc).totalScore
        = ((games.filterMap locate).map fun r => r.totalScore).sum ∧
    (games.foldl (statsStep locate) initAcc).totalWins
        = (games.filterMap locate).countP (fun r => r.isWinner) ∧
    ((games.foldl (statsStep locate) initAcc).highScore
        ∈ (games.filterMap locate).map fun r => r.totalScore) ∧
    (∀ t ∈ (games.filterMap locate).map fun r => r.totalScore,
        t ≤ (games.foldl (statsStep locate) initAcc).highScore) ∧
    ((games.foldl (statsStep locate) initAcc).lowScore.getD 0
        ∈ (games.filterMap locate).map fun r => r.totalScore) ∧
    (∀ t ∈ (games.filterMap locate).map fun r => r.totalScore,
        (games.foldl (statsStep locate) initAcc).lowScore.getD 0 ≤ t) ∧
    (games.foldl (statsStep locate) initAcc).birds
        = ((games.filterMap locate).map fun r => r.scores.birds).sum ∧
    (games.foldl (statsStep locate) initAcc).bonus
        = ((games.filterMap locate).map fun r => r.scores.bonus).sum ∧
    (games.foldl (statsStep locate) initAcc).endOfRound
        = ((games.filterMap locate).map fun r => r.scores.endOfRound).sum ∧
    (games.foldl (statsStep locate) initAcc).eggs
        = ((games.filterMap locate).map fun r => r.scores.eggs).sum ∧
    (games.foldl (statsStep locate) initAcc).cachedFood
        = ((games.filterMap locate).map fun r => r.scores.cachedFood).sum ∧
    (games.foldl (statsStep locate) initAcc).tuckedCards
        = ((games.filterMap locate).map fun r => r.scores.tuckedCards).sum ∧
    (games.foldl (statsStep locate) initAcc).nectar
        = ((games.filterMap locate).map fun r => r.scores.nectar.getD 0).sum ∧
    (games.foldl (statsStep locate) initAcc).duetTokens
        = ((games.filterMap locate).map fun r => r.scores.duetTokens.getD 0).sum := by
  rw [foldl_statsStep_filterMap]
  cases hr : games.filterMap locate with
  | nil => exact absurd hr hrows
  | cons r0 rs =>
      have hmapne : ((r0 :: rs).map fun r => r.totalScore) ≠ [] := by simp
      have hhigh : ((r0 :: rs).foldl rowStep initAcc).highScore
          = ((r0 :: rs).map fun r => r.totalScore).foldr max 0 := by
        rw [foldl_rowStep_high]; simp [initAcc]
      have hlow : ((r0 :: rs).foldl rowStep initAcc).lowScore
          = some ((rs.map fun r => r.totalScore).foldr min r0.totalScore) := by
        rw [foldl_rowStep_low]
        show ((r0.totalScore :: rs.map fun r => r.totalScore).foldl lowStep none) = _
        rw [List.foldl_cons]
        show (rs.map fun r => r.totalScore).foldl lowStep (some r0.totalScore) = _
        rw [foldl_lowStep_some]
      refine ⟨by rw [foldl_rowStep_totalScore]; simp [initAcc],
        by rw [foldl_rowStep_totalWins]; simp [initAcc], ?_, ?_, ?_, ?_,
        by rw [foldl_rowStep_birds]; simp [initAcc],
        by rw [foldl_rowStep_bonus]; simp [initAcc],
        by rw [foldl_rowStep_endOfRound]; simp [initAcc],
        by rw [foldl_rowStep_eggs]; simp [initAcc],
        by rw [foldl_rowStep_cachedFood]; simp [initAcc],
        by rw [foldl_rowStep_tuckedCards]; simp [initAcc],
        by rw [foldl_rowStep_nectar]; simp [initAcc],
        by rw [foldl_rowStep_duetTokens]; simp [initAcc]⟩
      · rw [hhigh]
        exact foldr_max_zero_mem _ hmapne
      · intro t ht
        rw [hhigh]
        exact le_foldr_max ht
      · rw [hlow]
        show (rs.map fun r => r.totalScore).foldr min r0.totalScore
          ∈ (r0 :: rs).map fun r => r.totalScore
        rcases foldr_min_mem_or (rs.map fun r => r.totalScore) r0.totalScore with hc | hc
        · rw [hc]; simp
        · rw [List.map_cons]
          exact List.mem_cons_of_mem _ hc
      · intro t ht
        rw [hlow]
        show (rs.map fun r => r.totalScore).foldr min r0.totalScore ≤ t
        rw [List.map_cons] at ht
        rcases List.mem_cons.mp ht with rfl | ht
        · exact foldr_min_le_init _ _
        · exact foldr_min_le_mem _ _ _ ht

/-- `calculatePlayerStats` satisfies the accumulation description with the
exact-name row lookup. -/
theorem calculatePlayerStats_spec (store : Store) (name : String) (s : PlayerStats)
    (h : calculatePlayerStats store name = some s) :
    StatsSpec s (getGamesByPlayer store name) (locateExact name) := by
  by_cases hg : getGamesByPlayer store name = []
  · exfalso
    simp [calculatePlayerStats, hg] at h
  · have heq : s = finishStats name none none (getGamesByPlayer store name).length
        ((getGamesByPlayer store name).foldl (statsStep (locateExact name)) initAcc) := by
      simp only [calculatePlayerStats] at h
      rw [if_neg hg] at h
      exact (Option.some.inj h).symm
    have hrows : (getGamesByPlayer store name).filterMap (locateExact name) ≠ [] :=
      filterMap_locate_ne_nil _ _ hg
        (fun g hgm => locateExact_isSome store name none g hgm)
    obtain ⟨h1, h2, h3, h4, h5, h6, h7, h8, h9, h10, h11, h12, h13, h14⟩ :=
      statsAcc_char (getGamesByPlayer store name) (locateExact name) hrows
    subst heq
    exact ⟨hg, hrows, rfl, h2, by simp only [finishStats]; rw [h1],
      h3, h4, h5, h6,
      by simp only [finishStats]; rw [h7],
      by simp only [finishStats]; rw [h8],
      by simp only [finishStats]; rw [h9],
      by simp only [finishStats]; rw [h10],
      by simp only [finishStats]; rw [h11],
      by simp only [finishStats]; rw [h12],
      by simp only [finishStats]; rw [h13],
      by simp only [finishStats]; rw [h14]⟩

/-- `calculateDiscordUserStats` satisfies the accumulation description
with the case-insensitive alias row lookup. -/
theorem calculateDiscordUserStats_spec (store : Store) (discordUsername : String)
    (s : PlayerStats) (h : calculateDiscordUserStats store discordUsername = some s) :
    StatsSpec s (getGamesByDiscordUser store discordUsername)
      (locateByAliases (getWingspanNames discordUsername)) := by
  by_cases hw : getWingspanNames discordUsername = []
  · exfalso
    simp [calculateDiscordUserStats, hw] at h
  · by_cases hg : getGamesByDiscordUser store discordUsername = []
    · exfalso
      simp only [calculateDiscordUserStats] at h
      rw [if_neg hw, if_pos hg] at h
      cases h
    · have heq : s = finishStats discordUsername (some discordUsername)
          (some (getWingspanNames discordUsername))
          (getGamesByDiscordUser store discordUsername).length
          ((getGamesByDiscordUser store discordUsername).foldl
            (statsStep (locateByAliases (getWingspanNames discordUsername))) initAcc) := by
        simp only [calculateDiscordUserStats] at h
        rw [if_neg hw, if_neg hg] at h
        exact (Option.some.inj h).symm
      have hrows : (getGamesByDiscordUser store discordUsername).filterMap
          (locateByAliases (getWingspanNames discordUsername)) ≠ [] :=
        filterMap_locate_ne_nil _ _ hg
          (fun g hgm => locateByAliases_isSome store discordUsername none g hgm)
      obtain ⟨h1, h2, h3, h4, h5, h6, h7, h8, h9, h10, h11, h12, h13, h14⟩ :=
        statsAcc_char (getGamesByDiscordUser store discordUsername)
          (locateByAliases (getWingspanNames discordUsername)) hrows
      subst heq
      exact ⟨hg, hrows, rfl, h2, by simp only [finishStats]; rw [h1],
        h3, h4, h5, h6,
        by simp only [finishStats]; rw [h7],
        by simp only [finishStats]; rw [h8],
        by simp only [finishStats]; rw [h9],
        by simp only [finishStats]; rw [h10],
        by simp only [finishStats]; rw [h11],
        by simp only [finishStats]; rw [h12],
        by simp only [finishStats]; rw [h13],
        by simp only [finishStats]; rw [h14]⟩

theorem calculateDiscordUserStats_fields (store : Store) (d : String)
    (s : PlayerStats) (h : calculateDiscordUserStats store d = some s) :
    s.discordUsername = some d ∧ 1 ≤ s.gamesPlayed := by
  by_cases hw : getWingspanNames d = []
  · exfalso; simp [calculateDiscordUserStats, hw] at h
  · by_cases hg : getGamesByDiscordUser store d = []
    · exfalso
      simp only [calculateDiscordUserStats] at h
      rw [if_neg hw, if_pos hg] at h
      cases h
    · simp only [calculateDiscordUserStats] at h
      rw [if_neg hw, if_neg hg] at h
      have heq := (Option.some.inj h).symm
      subst heq
      refine ⟨rfl, ?_⟩
      show 1 ≤ (getGamesByDiscordUser store d).length
      cases hgl : getGamesByDiscordUser store d with
      | nil => exact absurd hgl hg
      | cons _ _ => simp

theorem calculatePlayerStats_fields (store : Store) (name : String)
    (s : PlayerStats) (h : calculatePlayerStats store name = some s) :
    s.discordUsername = none ∧ s.playerName = name ∧ 1 ≤ s.gamesPlayed := by
  by_cases hg : getGamesByPlayer store name = []
  · exfalso; simp [calculatePlayerStats, hg] at h
  · simp only [calculatePlayerStats] at h
    rw [if_neg hg] at h
    have heq := (Option.some.inj h).symm
    subst heq
    refine ⟨rfl, rfl, ?_⟩
    show 1 ≤ (getGamesByPlayer store name).length
    cases hgl : getGamesByPlayer store name with
    | nil => exact absurd hgl hg
    | cons _ _ => simp

/-- Exhaustive description of what one `getLeaderboard` loop iteration
does to the accumulator, depending on how the name resolves and on the
processed sets. -/
theorem leaderboardStep_cases (store : Store)
    (acc : List PlayerStats × List String × List String) (name : String) :
    (∃ d, (resolvePlayerIdentity name).isRegistered = true ∧
      (resolvePlayerIdentity name).discordUsername = some d ∧
      ((acc.2.1.contains d = true ∧ leaderboardStep store acc name = acc) ∨
       (acc.2.1.contains d = false ∧
         ((∃ ps, calculateDiscordUserStats store d = some ps ∧
            ps.discordUsername = some d ∧ 1 ≤ ps.gamesPlayed ∧
            leaderboardStep store acc name
              = (acc.1 ++ [ps], d :: acc.2.1, acc.2.2)) ∨
          (calculateDiscordUserStats store d = none ∧
            leaderboardStep store acc name
              = (acc.1, d :: acc.2.1, acc.2.2)))))) ∨
    (¬((resolvePlayerIdentity name).isRegistered = true ∧
        (resolvePlayerIdentity name).discordUsername.isSome = true) ∧
      ((acc.2.2.contains (lowerStr name) = true ∧
          leaderboardStep store acc name = acc) ∨
       (acc.2.2.contains (lowerStr name) = false ∧
         ((∃ ps, calculatePlayerStats store name = some ps ∧
            ps.discordUsername = none ∧ ps.playerName = name ∧ 1 ≤ ps.gamesPlayed ∧
            leaderboardStep store acc name
              = (acc.1 ++ [ps], acc.2.1, lowerStr name :: acc.2.2)) ∨
          (calculatePlayerStats store name = none ∧
            leaderboardStep store acc name
              = (acc.1, acc.2.1, lowerStr name :: acc.2.2)))))) := by
  unfold leaderboardStep
  by_cases hreg : (resolvePlayerIdentity name).isRegistered = true
      ∧ (resolvePlayerIdentity name).discordUsername.isSome = true
  · left
    refine ⟨(resolvePlayerIdentity name).discordUsername.get hreg.2, hreg.1,
      (Option.some_get hreg.2).symm, ?_⟩
    rw [dif_pos hreg]
    by_cases hc : acc.2.1.contains
        ((resolvePlayerIdentity name).discordUsername.get hreg.2)
    · left
      exact ⟨hc, by rw [if_pos hc]⟩
    · right
      refine ⟨by simpa using hc, ?_⟩
      rw [if_neg (by simpa using hc)]
      cases hst : calculateDiscordUserStats store
          ((resolvePlayerIdentity name).discordUsername.get hreg.2) with
      | none => right; exact ⟨rfl, rfl⟩
      | some ps =>
          left
          obtain ⟨hdu, hgp⟩ := calculateDiscordUserStats_fields store _ ps hst
          exact ⟨ps, rfl, hdu, hgp, by simp [hgp]⟩
  · right
    refine ⟨hreg, ?_⟩
    rw [dif_neg hreg]
    by_cases hc : acc.2.2.contains (lowerStr name)
    · left
      exact ⟨hc, by rw [if_pos hc]⟩
    · right
      refine ⟨by simpa using hc, ?_⟩
      rw [if_neg (by simpa using hc)]
      cases hst : calculatePlayerStats store name with
      | none => right; exact ⟨rfl, rfl⟩
      | some ps =>
          left
          obtain ⟨hdu, hpn, hgp⟩ := calculatePlayerStats_fields store name ps hst
          exact ⟨ps, rfl, hdu, hpn, hgp, by simp [hgp]⟩

theorem leaderboardStep_bounds (store : Store)
    (acc : List PlayerStats × List String × List String) (name : String)
    (h1 : ∀ r ∈ acc.1, 1 ≤ r.gamesPlayed)
    (h2 : ∀ d : String, acc.1.countP (fun r => r.discordUsername == some d)
        ≤ if acc.2.1.contains d then 1 else 0)
    (h3 : ∀ nm : String, acc.1.countP
          (fun r => r.discordUsername == none && lowerStr r.playerName == nm)
        ≤ if acc.2.2.contains nm then 1 else 0) :
    (∀ r ∈ (leaderboardStep store acc name).1, 1 ≤ r.gamesPlayed) ∧
    (∀ d : String, (leaderboardStep store acc name).1.countP
          (fun r => r.discordUsername == some d)
        ≤ if (leaderboardStep store acc name).2.1.contains d then 1 else 0) ∧
    (∀ nm : String, (leaderboardStep store acc name).1.countP
          (fun r => r.discordUsername == none && lowerStr r.playerName == nm)
        ≤ if (leaderboardStep store acc name).2.2.contains nm then 1 else 0) := by
  rcases leaderboardStep_cases store acc name with
    ⟨d, hreg, hdu, hcase⟩ | ⟨hreg, hcase⟩
  · rcases hcase with ⟨hc, heq⟩ | ⟨hc, hcase⟩
    · rw [heq]; exact ⟨h1, h2, h3⟩
    · rcases hcase with ⟨ps, hst, hdu2, hgp, heq⟩ | ⟨hst, heq⟩
      · rw [heq]
        refine ⟨?_, ?_, ?_⟩
        · intro r hr
          rcases List.mem_append.mp hr with hr | hr
          · exact h1 r hr
          · rcases List.mem_singleton.mp hr with rfl
            exact hgp
        · intro d'
          simp only [List.countP_append, List.contains_cons]
          by_cases hdd : d' = d
          · subst hdd
            have hold := h2 d'
            rw [hc] at hold
            simp only [Bool.false_eq_true, if_false] at hold
            have hone : List.countP (fun r => r.discordUsername == some d') [ps] = 1 := by
              simp [List.countP_cons, hdu2]
            rw [hone]
            simp only [beq_self_eq_true, Bool.true_or, if_true]
            omega
          · have hzero : List.countP (fun r => r.discordUsername == some d') [ps] = 0 := by
              simp only [List.countP_cons, List.countP_nil, hdu2]
              have : (some d == some d') = false := by
                simp only [beq_eq_false_iff_ne, ne_eq, Option.some.injEq]
                exact fun h => hdd h.symm
              simp [this]
            rw [hzero]
            have hdb : (d' == d) = false := by
              simp only [beq_eq_false_iff_ne, ne_eq]
              exact hdd
            simp only [hdb, Bool.false_or]
            have := h2 d'
            omega
        · intro nm
          simp only [List.countP_append]
          have hzero : List.countP
              (fun r => r.discordUsername == none && lowerStr r.playerName == nm) [ps] = 0 := by
            simp [List.countP_cons, hdu2]
          rw [hzero]
          have := h3 nm
          omega
      · rw [heq]
        refine ⟨h1, ?_, h3⟩
        intro d'
        simp only [List.contains_cons]
        by_cases hdd : d' = d
        · subst hdd
          have hold := h2 d'
          rw [hc] at hold
          simp only [Bool.false_eq_true, if_false] at hold
          simp only [beq_self_eq_true, Bool.true_or, if_true]
          omega
        · have hdb : (d' == d) = false := by
            simp only [beq_eq_false_iff_ne, ne_eq]
            exact hdd
          simp only [hdb, Bool.false_or]
          exact h2 d'
  · rcases hcase with ⟨hc, heq⟩ | ⟨hc, hcase⟩
    · rw [heq]; exact ⟨h1, h2, h3⟩
    · rcases hcase with ⟨ps, hst, hdu2, hpn, hgp, heq⟩ | ⟨hst, heq⟩
      · rw [heq]
        refine ⟨?_, ?_, ?_⟩
        · intro r hr
          rcases List.mem_append.mp hr with hr | hr
          · exact h1 r hr
          · rcases List.mem_singleton.mp hr with rfl
            exact hgp
        · intro d'
          simp only [List.countP_append]
          have hzero : List.countP (fun r => r.discordUsername == some d') [ps] = 0 := by
            simp [List.countP_cons, hdu2]
          rw [hzero]
          have := h2 d'
          omega
        · intro nm
          simp only [List.countP_append, List.contains_cons]
          by_cases hnn : nm = lowerStr name
          · subst hnn
            have hold := h3 (lowerStr name)
            rw [hc] at hold
            simp only [Bool.false_eq_true, if_false] at hold
            have hone : List.countP
                (fun r => r.discordUsername == none
                  && lowerStr r.playerName == lowerStr name) [ps] = 1 := by
              simp [List.countP_cons, hdu2, hpn]
            rw [hone]
            simp only [beq_self_eq_true, Bool.true_or, if_true]
            omega
          · have hzero : List.countP
                (fun r => r.discordUsername == none && lowerStr r.playerName == nm) [ps] = 0 := by
              simp only [List.countP_cons, List.countP_nil, hdu2, hpn]
              have : (lowerStr name == nm) = false := by
                simp only [beq_eq_false_iff_ne, ne_eq]
                exact fun h => hnn h.symm
              simp [this]
            rw [hzero]
            have hnb : (nm == lowerStr name) = false := by
              simp only [beq_eq_false_iff_ne, ne_eq]
              exact hnn
            simp only [hnb, Bool.false_or]
            have := h3 nm
            omega
      · rw [heq]
        refine ⟨h1, h2, ?_⟩
        intro nm
        simp only [List.contains_cons]
        by_cases hnn : nm = lowerStr name
        · subst hnn
          have hold := h3 (lowerStr name)
          rw [hc] at hold
          simp only [Bool.false_eq_true, if_false] at hold
          simp only [beq_self_eq_true, Bool.true_or, if_true]
          omega
        · have hnb : (nm == lowerStr name) = false := by
            simp only [beq_eq_false_iff_ne, ne_eq]
            exact hnn
          simp only [hnb, Bool.false_or]
          exact h3 nm

theorem leaderboardFold_bounds (store : Store) :
    ∀ (names : List String) (acc : List PlayerStats × List String × List String),
      (∀ r ∈ acc.1, 1 ≤ r.gamesPlayed) →
      (∀ d : String, acc.1.countP (fun r => r.discordUsername == some d)
          ≤ if acc.2.1.contains d then 1 else 0) →
      (∀ nm : String, acc.1.countP
            (fun r => r.discordUsername == none && lowerStr r.playerName == nm)
          ≤ if acc.2.2.contains nm then 1 else 0) →
      (∀ r ∈ (names.foldl (leaderboardStep store) acc).1, 1 ≤ r.gamesPlayed) ∧
      (∀ d : String, (names.foldl (leaderboardStep store) acc).1.countP
            (fun r => r.discordUsername == some d)
          ≤ if (names.foldl (leaderboardStep store) acc).2.1.contains d then 1 else 0) ∧
      (∀ nm : String, (names.foldl (leaderboardStep store) acc).1.countP
            (fun r => r.discordUsername == none && lowerStr r.playerName == nm)
          ≤ if (names.foldl (leaderboardStep store) acc).2.2.contains nm then 1 else 0) := by
  intro names
  induction names with
  | nil => intro acc h1 h2 h3; exact ⟨h1, h2, h3⟩
  | cons name rest ih =>
      intro acc h1 h2 h3
      rw [List.foldl_cons]
      obtain ⟨g1, g2, g3⟩ := leaderboardStep_bounds store acc name h1 h2 h3
      exact ih (leaderboardStep store acc name) g1 g2 g3

theorem leaderboardStep_pd_mono (store : Store)
    (acc : List PlayerStats × List String × List String) (name : String)
    (d' : String) (h : acc.2.1.contains d' = true) :
    (leaderboardStep store acc name).2.1.contains d' = true := by
  rcases leaderboardStep_cases store acc name with
    ⟨d, _, _, hcase⟩ | ⟨_, hcase⟩
  · rcases hcase with ⟨_, heq⟩ | ⟨_, hcase⟩
    · rw [heq]; exact h
    · rcases hcase with ⟨ps, _, _, _, heq⟩ | ⟨_, heq⟩ <;>
        · rw [heq]
          simp only [List.contains_cons, h, Bool.or_true]
  · rcases hcase with ⟨_, heq⟩ | ⟨_, hcase⟩
    · rw [heq]; exact h
    · rcases hcase with ⟨ps, _, _, _, _, heq⟩ | ⟨_, heq⟩ <;> rw [heq] <;> exact h

theorem leaderboardFold_pd_mono (store : Store) :
    ∀ (names : List String) (acc : List PlayerStats × List String × List String)
      (d' : String), acc.2.1.contains d' = true →
      ((names.foldl (leaderboardStep store) acc).2.1.contains d' = true) := by
  intro names
  induction names with
  | nil => intro acc d' h; exact h
  | cons name rest ih =>
      intro acc d' h
      rw [List.foldl_cons]
      exact ih _ d' (leaderboardStep_pd_mono store acc name d' h)

theorem leaderboardStep_processes (store : Store)
    (acc : List PlayerStats × List String × List String) (name : String)
    (d : String) (hreg : (resolvePlayerIdentity name).isRegistered = true)
    (hdu : (resolvePlayerIdentity name).discordUsername = some d) :
    (leaderboardStep store acc name).2.1.contains d = true := by
  rcases leaderboardStep_cases store acc name with
    ⟨d2, _, hdu2, hcase⟩ | ⟨hno, _⟩
  · have hd2 : d2 = d := by
      rw [hdu] at hdu2
      exact (Option.some.inj hdu2).symm
    subst hd2
    rcases hcase with ⟨hc, heq⟩ | ⟨_, hcase⟩
    · rw [heq]; exact hc
    · rcases hcase with ⟨ps, _, _, _, heq⟩ | ⟨_, heq⟩ <;>
        · rw [heq]
          simp [List.contains_cons]
  · exfalso
    exact hno ⟨hreg, by rw [hdu]; rfl⟩

theorem leaderboardStep_exists_inv (store : Store) (d0 : String)
    (hd : calculateDiscordUserStats store d0 ≠ none)
    (acc : List PlayerStats × List String × List String) (name : String)
    (hinv : acc.2.1.contains d0 = true →
      1 ≤ acc.1.countP (fun r => r.discordUsername == some d0)) :
    (leaderboardStep store acc name).2.1.contains d0 = true →
      1 ≤ (leaderboardStep store acc name).1.countP
        (fun r => r.discordUsername == some d0) := by
  rcases leaderboardStep_cases store acc name with
    ⟨d, _, _, hcase⟩ | ⟨_, hcase⟩
  · rcases hcase with ⟨_, heq⟩ | ⟨_, hcase⟩
    · rw [heq]; exact hinv
    · rcases hcase with ⟨ps, hst, hdu2, _, heq⟩ | ⟨hst, heq⟩
      · rw [heq]
        intro hcont
        simp only [List.countP_append]
        by_cases hdd : d0 = d
        · subst hdd
          have hone : List.countP (fun r => r.discordUsername == some d0) [ps] = 1 := by
            simp [List.countP_cons, hdu2]
          omega
        · simp only [List.contains_cons] at hcont
          have hdb : (d0 == d) = false := by
            simp only [beq_eq_false_iff_ne, ne_eq]
            exact hdd
          rw [hdb, Bool.false_or] at hcont
          have := hinv hcont
          omega
      · rw [heq]
        intro hcont
        simp only [List.contains_cons] at hcont
        by_cases hdd : d0 = d
        · exfalso
          rw [← hdd] at hst
          exact hd hst
        · have hdb : (d0 == d) = false := by
            simp only [beq_eq_false_iff_ne, ne_eq]
            exact hdd
          rw [hdb, Bool.false_or] at hcont
          exact hinv hcont
  · rcases hcase with ⟨_, heq⟩ | ⟨_, hcase⟩
    · rw [heq]; exact hinv
    · rcases hcase with ⟨ps, _, _, _, _, heq⟩ | ⟨_, heq⟩
      · rw [heq]
        intro hcont
        simp only [List.countP_append]
        have := hinv hcont
        omega
      · rw [heq]
        exact hinv

theorem leaderboardFold_exists_inv (store : Store) (d0 : String)
    (hd : calculateDiscordUserStats store d0 ≠ none) :
    ∀ (names : List String) (acc : List PlayerStats × List String × List String),
      (acc.2.1.contains d0 = true →
        1 ≤ acc.1.countP (fun r => r.discordUsername == some d0)) →
      ((names.foldl (leaderboardStep store) acc).2.1.contains d0 = true →
        1 ≤ (names.foldl (leaderboardStep store) acc).1.countP
          (fun r => r.discordUsername == some d0)) := by
  intro names
  induction names with
  | nil => intro acc hinv; exact hinv
  | cons name rest ih =>
      intro acc hinv
      rw [List.foldl_cons]
      exact ih _ (leaderboardStep_exists_inv store d0 hd acc name hinv)

theorem leaderboardFold_processes (store : Store) (d : String) :
    ∀ (names : List String) (acc : List PlayerStats × List String × List String)
      (name : String), name ∈ names →
      (resolvePlayerIdentity name).isRegistered = true →
      (resolvePlayerIdentity name).discordUsername = some d →
      ((names.foldl (leaderboardStep store) acc).2.1.contains d = true) := by
  intro names
  induction names with
  | nil => intro acc name hmem; cases hmem
  | cons n rest ih =>
      intro acc name hmem hreg hdu
      rw [List.foldl_cons]
      rcases List.mem_cons.mp hmem with rfl | hmem
      · exact leaderboardFold_pd_mono store rest _ d
          (leaderboardStep_processes store acc name d hreg hdu)
      · exact ih _ name hmem hreg hdu

/-! # Theorems -/

/-- If `updateGame` succeeds, the returned game's rows are the rebuilt
rows of the update input. -/
theorem updateGame_players_eq (store : Store) (gameId : String)
    (pids : Nat → String) (input : UpdateGameInput) (g : Game)
    (h : (updateGame store gameId pids input).1 = some g) :
    g.players =
      buildRows gameId pids (maxScoreOf (computePlayers input.players))
        (computePlayers input.players) := by
  unfold updateGame at h
  cases hg : getGame store gameId with
  | none => rw [hg] at h; simp at h
  | some existing =>
      rw [hg] at h
      simp only at h
      have := Option.some.inj h
      rw [← this]

/-- **C1**: in every game produced by `createGame` and by a successful
`updateGame`, each player row's `totalScore` is the sum of all its
`ScoreBreakdown` category fields, and `isWinner` is true exactly for the
rows whose total is greatest in the game (so a tie at the maximum makes
every tied player a winner). -/
theorem C1_totals_and_winners :
    (∀ (store : Store) (gameId createdAt : String) (pids : Nat → String)
        (input : CreateGameInput),
      ∀ row ∈ ((createGame store gameId createdAt pids input).1).players,
        row.totalScore = scoreSum row.scores ∧
        (row.isWinner = true ↔
          ∀ other ∈ ((createGame store gameId createdAt pids input).1).players,
            other.totalScore ≤ row.totalScore)) ∧
    (∀ (store : Store) (gameId : String) (pids : Nat → String)
        (input : UpdateGameInput) (g : Game),
      (updateGame store gameId pids input).1 = some g →
      ∀ row ∈ g.players,
        row.totalScore = scoreSum row.scores ∧
        (row.isWinner = true ↔
          ∀ other ∈ g.players, other.totalScore ≤ row.totalScore)) := by
  constructor
  · intro store gameId createdAt pids input row hrow
    exact buildRows_invariant gameId pids (computePlayers input.players)
      (computePlayersAux_total input.players 0) row hrow
  · intro store gameId pids input g h row hrow
    rw [updateGame_players_eq store gameId pids input g h] at hrow ⊢
    exact buildRows_invariant gameId pids (computePlayers input.players)
      (computePlayersAux_total input.players 0) row hrow

/-- Witness for C1 at the spec's worked scenario: Alice's row (45+15+10+
18+4+8 = 100) has `totalScore` equal to its category sum and is the winner
over Bob's 83. -/
theorem C1_totals_and_winners_witness :
    aliceRow.totalScore = scoreSum aliceRow.scores ∧
    (aliceRow.isWinner = true ↔
      ∀ other ∈ ((createGame emptyStore "g1" "t0" pidGen aliceBobInput).1).players,
        other.totalScore ≤ aliceRow.totalScore) :=
  C1_totals_and_winners.1 emptyStore "g1" "t0" pidGen aliceBobInput aliceRow
    (by decide)

/-- **C7**: for any stats sequence handed to the leaderboard page, the
presenter's rank pass gives the first entry rank 1 and each later entry
the rank of the immediately preceding entry when their average scores tie,
and its 1-based position (`j + 2` for 0-based index `j + 1`) otherwise;
consequently ranks are non-decreasing along the sequence and repeat only
on exact score ties. -/
theorem C7_presenter_ranks (players : List PlayerStats) :
    (assignRanks players).length = players.length ∧
    (∀ h0 : 0 < (assignRanks players).length,
      ((assignRanks players).get ⟨0, h0⟩).rank = 1) ∧
    (∀ (j : Nat) (hj : j + 1 < (assignRanks players).length),
      (((assignRanks players).get ⟨j + 1, hj⟩).averageScore
          = ((assignRanks players).get ⟨j, by omega⟩).averageScore →
        ((assignRanks players).get ⟨j + 1, hj⟩).rank
          = ((assignRanks players).get ⟨j, by omega⟩).rank) ∧
      (((assignRanks players).get ⟨j + 1, hj⟩).averageScore
          ≠ ((assignRanks players).get ⟨j, by omega⟩).averageScore →
        ((assignRanks players).get ⟨j + 1, hj⟩).rank = j + 2) ∧
      ((assignRanks players).get ⟨j, by omega⟩).rank
        ≤ ((assignRanks players).get ⟨j + 1, hj⟩).rank ∧
      (((assignRanks players).get ⟨j + 1, hj⟩).rank
          = ((assignRanks players).get ⟨j, by omega⟩).rank →
        ((assignRanks players).get ⟨j + 1, hj⟩).averageScore
          = ((assignRanks players).get ⟨j, by omega⟩).averageScore)) := by
  refine ⟨assignRanksAux_length players none 0 0, ?_, ?_⟩
  · intro h0
    cases players with
    | nil => simp [assignRanks, assignRanksAux] at h0
    | cons p rest => simp [assignRanks, assignRanksAux, mkEntry]
  · intro j hj
    have h2 := assignRanksAux_adjacent players none 0 0 (by omega) j hj
    simp only [assignRanks]
    refine ⟨h2.1, fun hne => ?_, h2.2.2.1, h2.2.2.2⟩
    have h3 := h2.2.1 hne
    omega

/-- Witness for C7 on averages 10, 10, 7: the tied second entry inherits
rank 1 and the third entry gets rank 3 (competition ranking 1, 1, 3). -/
theorem C7_presenter_ranks_witness :
    ((assignRanks rankDemo).get ⟨1, by decide⟩).rank
        = ((assignRanks rankDemo).get ⟨0, by decide⟩).rank ∧
    ((assignRanks rankDemo).get ⟨2, by decide⟩).rank = 3 :=
  ⟨((C7_presenter_ranks rankDemo).2.2 0 (by decide)).1 (by decide),
    ((C7_presenter_ranks rankDemo).2.2 1 (by decide)).2.1 (by decide)⟩

/-- **C8**: `updateGame` called with a game id that does not exist returns
the not-found outcome (`null`) and returns the store unchanged: no player
item is deleted or written and no metadata is updated. -/
theorem C8_update_notfound (store : Store) (gameId : String)
    (pids : Nat → String) (input : UpdateGameInput)
    (h : getGame store gameId = none) :
    updateGame store gameId pids input = (none, store) := by
  unfold updateGame
  rw [h]

/-- Witness for C8 at a concrete input: the empty store has no game
`"missing"`, and updating it changes nothing. -/
theorem C8_update_notfound_witness :
    updateGame emptyStore "missing" pidGen updInput = (none, emptyStore) :=
  C8_update_notfound emptyStore "missing" pidGen updInput (by decide)

/-- **C9**: on a store not already containing the freshly generated game
id, `createGame` followed by `getGame` of that id returns the game back:
same `playedAt`, `playerCount`, `uploadedBy`, `imageUrl` and `createdAt`,
and exactly the created player rows (as a permutation: the read-back order
is the range query's sort-key order), hence the same per-player name,
position, score breakdown, total score and winner flag. -/
theorem C9_roundtrip (store : Store) (gameId createdAt : String)
    (pids : Nat → String) (input : CreateGameInput)
    (hne : input.players ≠ [])
    (hm : ∀ m ∈ store.metas, m.gameId ≠ gameId)
    (hp : ∀ p ∈ store.players, p.gameId ≠ gameId) :
    ∃ g', getGame (createGame store gameId createdAt pids input).2 gameId = some g' ∧
      g'.id = gameId ∧
      g'.playedAt = input.playedAt ∧
      g'.playerCount = input.players.length ∧
      g'.uploadedBy = input.uploadedBy.getD "anonymous" ∧
      g'.imageUrl = input.imageUrl ∧
      g'.createdAt = createdAt ∧
      g'.players.Perm ((createGame store gameId createdAt pids input).1).players := by
  have hfst : ((createGame store gameId createdAt pids input).1).players
      = buildRows gameId pids (maxScoreOf (computePlayers input.players))
          (computePlayers input.players) := rfl
  have hsnd : (createGame store gameId createdAt pids input).2
      = (buildRows gameId pids (maxScoreOf (computePlayers input.players))
            (computePlayers input.players)).foldl
          (fun s r => putPlayer s (itemOfRow input.playedAt r))
          (putMeta store
            { gameId := gameId, playedAt := input.playedAt
              playerCount := input.players.length
              uploadedBy := input.uploadedBy.getD "anonymous"
              imageUrl := input.imageUrl, createdAt := createdAt
              winningScore := maxScoreOf (computePlayers input.players) }) := rfl
  have hmetas : (createGame store gameId createdAt pids input).2.metas
      = (store.metas.filter fun x => x.gameId ≠ gameId) ++
          [{ gameId := gameId, playedAt := input.playedAt
             playerCount := input.players.length
             uploadedBy := input.uploadedBy.getD "anonymous"
             imageUrl := input.imageUrl, createdAt := createdAt
             winningScore := maxScoreOf (computePlayers input.players) }] := by
    rw [hsnd, foldl_putPlayer_metas]
    rfl
  have hfind : (createGame store gameId createdAt pids input).2.metas.find?
      (fun m => m.gameId = gameId)
      = some
          { gameId := gameId, playedAt := input.playedAt
            playerCount := input.players.length
            uploadedBy := input.uploadedBy.getD "anonymous"
            imageUrl := input.imageUrl, createdAt := createdAt
            winningScore := maxScoreOf (computePlayers input.players) } := by
    rw [hmetas, List.find?_append]
    have h1 : (store.metas.filter fun x => x.gameId ≠ gameId).find?
        (fun m => m.gameId = gameId) = none := by
      apply List.find?_eq_none.mpr
      intro x hx
      have hxm := (List.mem_filter.mp hx).1
      simp only [decide_eq_true_eq]
      exact hm x hxm
    rw [h1]
    simp [List.find?]
  have hplayers2 : (createGame store gameId createdAt pids input).2.players
      = store.players ++
          (buildRows gameId pids (maxScoreOf (computePlayers input.players))
            (computePlayers input.players)).map (itemOfRow input.playedAt) := by
    rw [hsnd, foldl_putPlayer_players]
    · rfl
    · intro x hx r hr
      have hxg : x.gameId ≠ gameId := hp x hx
      have hrg := buildRows_gameId _ pids _ _ r hr
      intro hand
      exact hxg (hand.1.trans hrg)
    · exact buildRows_pairwise gameId pids _ input.players
  have hitems : playerItemsOf (createGame store gameId createdAt pids input).2 gameId
      = ((buildRows gameId pids (maxScoreOf (computePlayers input.players))
            (computePlayers input.players)).map (itemOfRow input.playedAt)).insertionSort
          (fun p q => strLe (playerSK p) (playerSK q) = true) := by
    unfold playerItemsOf
    rw [hplayers2, List.filter_append]
    have h1 : store.players.filter (fun p => p.gameId = gameId) = [] := by
      apply List.filter_eq_nil_iff.mpr
      intro x hx
      simp only [decide_eq_true_eq]
      exact hp x hx
    have h2 : ((buildRows gameId pids (maxScoreOf (computePlayers input.players))
            (computePlayers input.players)).map (itemOfRow input.playedAt)).filter
          (fun p => p.gameId = gameId)
        = (buildRows gameId pids (maxScoreOf (computePlayers input.players))
            (computePlayers input.players)).map (itemOfRow input.playedAt) := by
      apply List.filter_eq_self.mpr
      intro x hx
      rcases List.mem_map.mp hx with ⟨r, hr, rfl⟩
      simp only [decide_eq_true_eq, itemOfRow_gameId]
      exact buildRows_gameId _ pids _ _ r hr
    rw [h1, h2, List.nil_append]
  refine ⟨{ id := gameId, playedAt := input.playedAt
            playerCount := input.players.length
            uploadedBy := input.uploadedBy.getD "anonymous"
            imageUrl := input.imageUrl, createdAt := createdAt
            players := (playerItemsOf
              (createGame store gameId createdAt pids input).2 gameId).map rowOfItem },
          ?_, rfl, rfl, rfl, rfl, rfl, rfl, ?_⟩
  · unfold getGame
    rw [hfind]
  · rw [hfst]
    simp only
    rw [hitems]
    refine ((List.perm_insertionSort _ _).map rowOfItem).trans ?_
    rw [List.map_map]
    have hcomp : (rowOfItem ∘ itemOfRow input.playedAt) = id :=
      funext fun r => rowOfItem_itemOfRow input.playedAt r
    rw [hcomp, List.map_id]

/-- Witness for C9 at a concrete input: creating the Alice/Bob game in the
empty store and reading it back. -/
theorem C9_roundtrip_witness :
    ∃ g', getGame (createGame emptyStore "g1" "t0" pidGen aliceBobInput).2 "g1"
        = some g' ∧
      g'.id = "g1" ∧
      g'.playedAt = aliceBobInput.playedAt ∧
      g'.playerCount = aliceBobInput.players.length ∧
      g'.uploadedBy = aliceBobInput.uploadedBy.getD "anonymous" ∧
      g'.imageUrl = aliceBobInput.imageUrl ∧
      g'.createdAt = "t0" ∧
      g'.players.Perm ((createGame emptyStore "g1" "t0" pidGen aliceBobInput).1).players :=
  C9_roundtrip emptyStore "g1" "t0" pidGen aliceBobInput (by decide)
    (by intro m hm; cases hm) (by intro p hp; cases hp)

/-- **C10**: updating an existing game rewrites only the `playedAt`,
`playerCount` and `winningScore` metadata attributes and the player rows:
every stored metadata record keeps its `uploadedBy`, `imageUrl` and
`createdAt` (records of other games are fully unchanged), player items of
other games are untouched, and the returned game carries the existing
`uploadedBy`, `imageUrl` and `createdAt` unchanged. -/
theorem C10_update_frame (store : Store) (gameId : String)
    (pids : Nat → String) (input : UpdateGameInput) (g0 : Game)
    (h : getGame store gameId = some g0) :
    ∃ g', (updateGame store gameId pids input).1 = some g' ∧
      g'.uploadedBy = g0.uploadedBy ∧
      g'.imageUrl = g0.imageUrl ∧
      g'.createdAt = g0.createdAt ∧
      g'.playedAt = input.playedAt ∧
      g'.playerCount = input.players.length ∧
      (∀ m2 ∈ (updateGame store gameId pids input).2.metas,
        ∃ m ∈ store.metas, m2.gameId = m.gameId ∧ m2.uploadedBy = m.uploadedBy ∧
          m2.imageUrl = m.imageUrl ∧ m2.createdAt = m.createdAt ∧
          (m.gameId ≠ gameId → m2 = m)) ∧
      (∀ q : PlayerItem, q.gameId ≠ gameId →
        (q ∈ (updateGame store gameId pids input).2.players ↔ q ∈ store.players)) := by
  have heq : updateGame store gameId pids input
      = (some
          { id := gameId, playedAt := input.playedAt
            playerCount := input.players.length
            uploadedBy := g0.uploadedBy, imageUrl := g0.imageUrl
            createdAt := g0.createdAt
            players := buildRows gameId pids
              (maxScoreOf (computePlayers input.players))
              (computePlayers input.players) },
        (buildRows gameId pids (maxScoreOf (computePlayers input.players))
            (computePlayers input.players)).foldl
          (fun s r => putPlayer s (itemOfRow input.playedAt r))
          { metas := store.metas.map fun m =>
              if m.gameId = gameId then
                { m with
                  playedAt := input.playedAt
                  playerCount := input.players.length
                  winningScore := maxScoreOf (computePlayers input.players) }
              else m
            players := store.players.filter fun p => p.gameId ≠ gameId }) := by
    unfold updateGame
    rw [h]
  have hmetas : (updateGame store gameId pids input).2.metas
      = store.metas.map fun m =>
          if m.gameId = gameId then
            { m with
              playedAt := input.playedAt
              playerCount := input.players.length
              winningScore := maxScoreOf (computePlayers input.players) }
          else m := by
    rw [heq]
    simp only
    rw [foldl_putPlayer_metas]
  have hplayers : (updateGame store gameId pids input).2.players
      = (store.players.filter fun p => p.gameId ≠ gameId) ++
          (buildRows gameId pids (maxScoreOf (computePlayers input.players))
            (computePlayers input.players)).map (itemOfRow input.playedAt) := by
    rw [heq]
    simp only
    rw [foldl_putPlayer_players]
    · intro x hx r hr
      have hxg : x.gameId ≠ gameId := by
        have := (List.mem_filter.mp hx).2
        simpa using this
      have hrg := buildRows_gameId _ pids _ _ r hr
      intro hand
      exact hxg (hand.1.trans hrg)
    · exact buildRows_pairwise gameId pids _ input.players
  refine ⟨{ id := gameId, playedAt := input.playedAt
            playerCount := input.players.length
            uploadedBy := g0.uploadedBy, imageUrl := g0.imageUrl
            createdAt := g0.createdAt
            players := buildRows gameId pids
              (maxScoreOf (computePlayers input.players))
              (computePlayers input.players) },
          by rw [heq], rfl, rfl, rfl, rfl, rfl, ?_, ?_⟩
  · intro m2 hm2
    rw [hmetas] at hm2
    rcases List.mem_map.mp hm2 with ⟨m, hm, rfl⟩
    by_cases hmg : m.gameId = gameId
    · exact ⟨m, hm, by simp [hmg], by simp [hmg], by simp [hmg], by simp [hmg],
        fun hc => absurd hmg hc⟩
    · exact ⟨m, hm, by simp [hmg], by simp [hmg], by simp [hmg], by simp [hmg],
        fun _ => by simp [hmg]⟩
  · intro q hq
    rw [hplayers]
    constructor
    · intro hmem
      rcases List.mem_append.mp hmem with hmem | hmem
      · exact (List.mem_filter.mp hmem).1
      · exfalso
        rcases List.mem_map.mp hmem with ⟨r, hr, rfl⟩
        exact hq ((itemOfRow_gameId input.playedAt r).trans
          (buildRows_gameId _ pids _ _ r hr))
    · intro hmem
      apply List.mem_append.mpr
      left
      exact List.mem_filter.mpr ⟨hmem, by simpa using hq⟩

/-- Witness for C10 at a concrete input: updating the stored `Acorbs1`
game with the Alice/Bob rows keeps its uploader, image and creation time. -/
theorem C10_update_frame_witness :
    ∃ g', (updateGame acorbsStore "g1" pidGen updInput).1 = some g' ∧
      g'.uploadedBy = ((getGame acorbsStore "g1").get (by decide)).uploadedBy ∧
      g'.imageUrl = ((getGame acorbsStore "g1").get (by decide)).imageUrl ∧
      g'.createdAt = ((getGame acorbsStore "g1").get (by decide)).createdAt ∧
      g'.playedAt = updInput.playedAt ∧
      g'.playerCount = updInput.players.length ∧
      (∀ m2 ∈ (updateGame acorbsStore "g1" pidGen updInput).2.metas,
        ∃ m ∈ acorbsStore.metas, m2.gameId = m.gameId ∧ m2.uploadedBy = m.uploadedBy ∧
          m2.imageUrl = m.imageUrl ∧ m2.createdAt = m.createdAt ∧
          (m.gameId ≠ "g1" → m2 = m)) ∧
      (∀ q : PlayerItem, q.gameId ≠ "g1" →
        (q ∈ (updateGame acorbsStore "g1" pidGen updInput).2.players ↔
          q ∈ acorbsStore.players)) :=
  C10_update_frame acorbsStore "g1" pidGen updInput
    ((getGame acorbsStore "g1").get (by decide)) (Option.some_get _).symm

/-- **C5, counterexample**: on a store whose one game has rows `bob`
(total 10, position 1) and `Bob` (total 20, position 2), `statsFor("Bob")`
(a standalone name) locates the row by *exact* name match — total 20, and
the reported high score is 20 — whereas the claim's case-insensitive rule
would locate the earlier `bob` row, total 10. -/
theorem C5_case_sensitive_counterexample :
    ((statsGames caseStore "Bob").filterMap (locatedRow "Bob")).map
        (fun r => r.totalScore) = [20] ∧
    ((statsGames caseStore "Bob").filterMap (specLocatedRow "Bob")).map
        (fun r => r.totalScore) = [10] ∧
    (calculatePlayerStatsAggregated caseStore "Bob").map
        (fun s => s.highScore) = some 20 :=
  ⟨by decide, by decide, by decide⟩

/-- **C5, amended**: whenever `statsFor` returns stats, it accumulates
over the row located in each fetched game — by case-insensitive alias
match for a registered identity, by *exact (case-sensitive)* name match
for a standalone one — with games played the game count, wins the count of
located winner rows, average the total sum over the game count, high/low
the max/min located total, and category averages treating an absent
optional category as 0. -/
theorem C5_stats_accumulation (store : Store) (name : String) (s : PlayerStats)
    (h : calculatePlayerStatsAggregated store name = some s) :
    StatsSpec s (statsGames store name) (locatedRow name) := by
  simp only [calculatePlayerStatsAggregated] at h
  unfold statsGames locatedRow
  cases hres : resolvePlayerIdentity name with
  | mk du wn reg =>
      rw [hres] at h
      simp only
      cases reg with
      | false =>
          simp only [Bool.false_eq_true, if_false] at h ⊢
          exact calculatePlayerStats_spec store name s h
      | true =>
          cases du with
          | none =>
              simp only [if_true] at h ⊢
              exact calculatePlayerStats_spec store name s h
          | some d =>
              simp only [if_true] at h ⊢
              exact calculateDiscordUserStats_spec store d s h

/-- Witness for C5 at a concrete input: the one-game store for the
registered handle `acorbs`. -/
theorem C5_stats_accumulation_witness :
    StatsSpec ((calculatePlayerStatsAggregated acorbsStore "acorbs").get (by decide))
      (statsGames acorbsStore "acorbs") (locatedRow "acorbs") :=
  C5_stats_accumulation acorbsStore "acorbs"
    ((calculatePlayerStatsAggregated acorbsStore "acorbs").get (by decide))
    (Option.some_get _).symm

/-- **C6, counterexample**: the raw names `bob` and `Bob` (one game in
which both appear) resolve to two *distinct* standalone identities, each
with at least one game, yet the leaderboard contains a single row: the
loop deduplicates standalone names case-insensitively, so it does not
return one row per distinct identity. -/
theorem C6_case_merge_counterexample :
    "bob" ∈ getAllPlayerNames caseStore ∧
    "Bob" ∈ getAllPlayerNames caseStore ∧
    resolvePlayerIdentity "bob" ≠ resolvePlayerIdentity "Bob" ∧
    calculatePlayerStats caseStore "bob" ≠ none ∧
    calculatePlayerStats caseStore "Bob" ≠ none ∧
    (getLeaderboard caseStore).length = 1 :=
  ⟨by decide, by decide, by decide, by decide, by decide, by decide⟩

/-- **C6, amended**: the leaderboard is sorted descending by average
score, every row has at least one game, a registered Discord identity
contributes at most one row — and exactly one as soon as any of its
aliases is observed in the scanned games and it has stats — and standalone
names are deduplicated case-insensitively, at most one row per lowercase
name class. -/
theorem C6_leaderboard_per_identity (store : Store) :
    List.Sorted (fun a b : PlayerStats => b.averageScore ≤ a.averageScore)
      (getLeaderboard store) ∧
    (∀ r ∈ getLeaderboard store, 1 ≤ r.gamesPlayed) ∧
    (∀ d : String, (getLeaderboard store).countP
        (fun r => r.discordUsername == some d) ≤ 1) ∧
    (∀ nm : String, (getLeaderboard store).countP
        (fun r => r.discordUsername == none && lowerStr r.playerName == nm) ≤ 1) ∧
    (∀ (name d : String), name ∈ getAllPlayerNames store →
      (resolvePlayerIdentity name).isRegistered = true →
      (resolvePlayerIdentity name).discordUsername = some d →
      calculateDiscordUserStats store d ≠ none →
      (getLeaderboard store).countP (fun r => r.discordUsername == some d) = 1) := by
  have hlb : getLeaderboard store
      = (((getAllPlayerNames store).foldl (leaderboardStep store)
            ([], [], [])).1).insertionSort
          (fun a b => b.averageScore ≤ a.averageScore) := rfl
  have hperm : (getLeaderboard store).Perm
      ((getAllPlayerNames store).foldl (leaderboardStep store) ([], [], [])).1 := by
    rw [hlb]
    exact List.perm_insertionSort _ _
  have hinit1 : ∀ r ∈ (([], [], []) :
      List PlayerStats × List String × List String).1, 1 ≤ r.gamesPlayed := by
    intro r hr; cases hr
  have hinit2 : ∀ d : String, (([], [], []) :
        List PlayerStats × List String × List String).1.countP
        (fun r => r.discordUsername == some d)
      ≤ if (([], [], []) : List PlayerStats × List String × List String).2.1.contains d
          then 1 else 0 := by
    intro d; simp
  have hinit3 : ∀ nm : String, (([], [], []) :
        List PlayerStats × List String × List String).1.countP
        (fun r => r.discordUsername == none && lowerStr r.playerName == nm)
      ≤ if (([], [], []) : List PlayerStats × List String × List String).2.2.contains nm
          then 1 else 0 := by
    intro nm; simp
  obtain ⟨b1, b2, b3⟩ := leaderboardFold_bounds store (getAllPlayerNames store)
    ([], [], []) hinit1 hinit2 hinit3
  refine ⟨?_, ?_, ?_, ?_, ?_⟩
  · rw [hlb]
    haveI : IsTotal PlayerStats (fun a b => b.averageScore ≤ a.averageScore) :=
      ⟨fun a b => le_total _ _⟩
    haveI : IsTrans PlayerStats (fun a b => b.averageScore ≤ a.averageScore) :=
      ⟨fun a b c hab hbc => le_trans hbc hab⟩
    exact List.sorted_insertionSort _ _
  · intro r hr
    exact b1 r (hperm.mem_iff.mp hr)
  · intro d
    rw [hperm.countP_eq]
    refine le_trans (b2 d) ?_
    split <;> omega
  · intro nm
    rw [hperm.countP_eq]
    refine le_trans (b3 nm) ?_
    split <;> omega
  · intro name d hmem hreg hdu hd
    have hcont := leaderboardFold_processes store d (getAllPlayerNames store)
      ([], [], []) name hmem hreg hdu
    have hinv0 : ((([], [], []) :
          List PlayerStats × List String × List String).2.1.contains d = true →
        1 ≤ (([], [], []) :
            List PlayerStats × List String × List String).1.countP
          (fun r => r.discordUsername == some d)) := by
      intro hcon
      simp [List.contains] at hcon
    have hge := leaderboardFold_exists_inv store d hd (getAllPlayerNames store)
      ([], [], []) hinv0 hcont
    have hle := b2 d
    rw [hcont] at hle
    simp only [if_true] at hle
    rw [hperm.countP_eq]
    omega

/-- Witness for C6 at a concrete input: the one-game store where the
alias `Acorbs1` of the registered handle `acorbs` appears. -/
theorem C6_leaderboard_per_identity_witness :
    (getLeaderboard acorbsStore).countP
      (fun r => r.discordUsername == some "acorbs") = 1 :=
  (C6_leaderboard_per_identity acorbsStore).2.2.2.2 "Acorbs1" "acorbs"
    (by decide) (by decide) (by decide) (by decide)

/-- **C2, counterexample**: identity resolution does *not* strip a leading
`"@"`: `resolve("@Acorbs1")` is an unregistered standalone identity (not
the registered handle `acorbs`), and on a store holding one `Acorbs1` game
`statsFor("@Acorbs1")` is not-found while `statsFor("Acorbs1")` is found,
so the two do not agree. -/
theorem C2_at_prefix_counterexample :
    (resolvePlayerIdentity "@Acorbs1").isRegistered = false ∧
    (resolvePlayerIdentity "@Acorbs1").discordUsername = none ∧
    (resolvePlayerIdentity "@Acorbs1").wingspanNames = ["@Acorbs1"] ∧
    calculatePlayerStatsAggregated acorbsStore "@Acorbs1" = none ∧
    calculatePlayerStatsAggregated acorbsStore "Acorbs1" ≠ none := by
  refine ⟨by decide, by decide, by decide, by decide, by decide⟩

/-- **C2, amended**: no `"@"` prefix is stripped — `resolve("@Acorbs1")`
treats the name verbatim and returns a Standalone identity — while without
the prefix `resolve("Acorbs1")` resolves through the alias set to the
registered handle `acorbs`, and `statsFor("Acorbs1")` agrees with
`statsFor("acorbs")` on every store. -/
theorem C2_no_at_strip (store : Store) :
    resolvePlayerIdentity "@Acorbs1" =
      { discordUsername := none, wingspanNames := ["@Acorbs1"], isRegistered := false } ∧
    resolvePlayerIdentity "Acorbs1" =
      { discordUsername := some "acorbs", wingspanNames := ["Acorbs", "Acorbs1"],
        isRegistered := true } ∧
    calculatePlayerStatsAggregated store "Acorbs1" =
      calculatePlayerStatsAggregated store "acorbs" :=
  ⟨by decide, by decide, rfl⟩

/-- **C3**: a creation request whose player list is empty or in which some
player row has a zero-length name is rejected by the POST handler's
validation with a 400 error, and the store receives no write. -/
theorem C3_validation (store : Store) (gameId createdAt : String)
    (pids : Nat → String) (body : CreateGameInput)
    (h : body.players = [] ∨ ∃ p ∈ body.players, p.name = "") :
    (postGames store gameId createdAt pids body).1.isError = true ∧
    (postGames store gameId createdAt pids body).2 = store := by
  unfold postGames
  rcases h with h | h
  · simp [h, CreateResponse.isError]
  · by_cases h1 : body.playedAt = "" ∨ body.players = []
    · simp [h1, CreateResponse.isError]
    · have h2 : body.players.any (fun p => p.name = "") = true := by
        rcases h with ⟨p, hp, hname⟩
        exact List.any_eq_true.mpr ⟨p, hp, by simp [hname]⟩
      simp [h1, h2, CreateResponse.isError]

/-- Witness for C3 at a concrete input: the empty player list is rejected
and the empty store is untouched. -/
theorem C3_validation_witness :
    (postGames emptyStore "g1" "t0" pidGen emptyPlayersInput).1.isError = true ∧
    (postGames emptyStore "g1" "t0" pidGen emptyPlayersInput).2 = emptyStore :=
  C3_validation emptyStore "g1" "t0" pidGen emptyPlayersInput (Or.inl rfl)

/-- **C4**: two names resolving to the same registered Discord identity
get identical aggregated stats, on every store. -/
theorem C4_alias_closure (store : Store) (a b d : String)
    (ha : (resolvePlayerIdentity a).isRegistered = true)
    (hb : (resolvePlayerIdentity b).isRegistered = true)
    (hda : (resolvePlayerIdentity a).discordUsername = some d)
    (hdb : (resolvePlayerIdentity b).discordUsername = some d) :
    calculatePlayerStatsAggregated store a = calculatePlayerStatsAggregated store b := by
  unfold calculatePlayerStatsAggregated
  simp only [ha, hb, hda, hdb, if_true]

/-- Witness for C4 at a concrete input: the aliases `Acorbs` and `Acorbs1`
of the registered handle `acorbs` agree on the one-game store. -/
theorem C4_alias_closure_witness :
    calculatePlayerStatsAggregated acorbsStore "Acorbs" =
      calculatePlayerStatsAggregated acorbsStore "Acorbs1" :=
  C4_alias_closure acorbsStore "Acorbs" "Acorbs1" "acorbs"
    (by decide) (by decide) (by decide) (by decide)

end WingStats
